import Mathlib

/-!
Verification of the Guarani corpora extraction, aggregation and reconciliation
pipeline (`src/processor.py`, `src/utils.py`).  The pipeline is shallowly
embedded: Python dictionaries become structures, pandas data frames become
lists of rows, file contents become lists, and Python exceptions become an
explicit error type threaded through `Except`.  The external NLP services
(the spaCy tokenizer and the language identifier) are parameters of the
embedding, since the pipeline consumes them as black boxes.
-/

/-- A dynamically typed Python value as it occurs in data frame cells,
JSON fields and XML element text: a string, a number, or `None`. -/
inductive PyVal where
  | str (s : String)
  | num (n : Int)
  | pynone
  deriving DecidableEq, Repr

/-- Python exceptions that the modelled code can raise. -/
inductive PyErr where
  | attributeError
  | indexError
  | keyError (k : String)
  | fileNotFoundError
  | unknownCorpusError
  deriving DecidableEq, Repr

/-- One spaCy token: its text and its punctuation flag. -/
structure Token where
  text : String
  is_punct : Bool
  deriving DecidableEq, Repr

/-- Output of the black-box language identifier
(`identifier.identify_languages`): a best-guess label with confidence plus
two auxiliary fields. -/
structure IdentifierResult where
  languages : String × ℚ
  source : ℚ
  voting : String
  deriving DecidableEq, Repr

/-- The two external NLP services consumed by the pipeline. -/
structure NLP where
  word_seg : String → List Token
  identify_languages : String → IdentifierResult

/-- A concrete instance of the black-box services, used to evaluate the
pipeline on concrete inputs: the tokenizer returns no tokens and the
identifier never recognises Guarani. -/
def trivialNLP : NLP where
  word_seg := fun _ => []
  identify_languages := fun _ => { languages := ("und", 0), source := 0, voting := "none" }

/-- Python's `str.strip()`: drop leading and trailing whitespace. -/
def pyStrip (s : String) : String :=
  String.mk (((s.data.dropWhile Char.isWhitespace).reverse.dropWhile Char.isWhitespace).reverse)

/-- Python's `str.startswith(p)`. -/
def pyStartsWith (s p : String) : Bool :=
  p.data.isPrefixOf s.data

/-- Cut the input at the first occurrence of the (non-empty) separator:
the part before it and the remainder after it, `none` when the separator
does not occur. -/
def splitFirst (sep : List Char) : List Char → Option (List Char × List Char)
  | [] => none
  | c :: cs =>
    if sep.isPrefixOf (c :: cs) then some ([], (c :: cs).drop sep.length)
    else
      match splitFirst sep cs with
      | none => none
      | some (part, rest2) => some (c :: part, rest2)

/-- Fuelled worker for `pySplit`; the fuel is always sufficient since each
step consumes at least one character. -/
def splitOnFuel (sep : List Char) : Nat → List Char → List (List Char)
  | 0, l => [l]
  | fuel + 1, l =>
    match splitFirst sep l with
    | none => [l]
    | some (part, rest2) => part :: splitOnFuel sep fuel rest2

/-- Python's `str.split(sep)` for a non-empty separator: split at every
occurrence, keeping empty parts. -/
def pySplit (s sepStr : String) : List String :=
  (splitOnFuel sepStr.data (s.data.length + 1) s.data).map String.mk

/-- Count maximal whitespace-free runs; the worker behind
`len(text.split())`. -/
def countRuns : List Char → Bool → Nat
  | [], _ => 0
  | c :: cs, inWord =>
    if c.isWhitespace then countRuns cs false
    else (if inWord then 0 else 1) + countRuns cs true

/-- `utils.word_count_split`: `len(text.split())` — number of
whitespace-separated tokens (Python `split()` drops empty tokens). -/
def word_count_split (text : String) : Nat :=
  countRuns text.data false

/-- `utils.word_count_spacy`: tokenize and count, skipping punctuation
tokens unless `include_punct` is set. -/
def word_count_spacy (nlp : NLP) (text : String) (include_punct : Bool) : Nat :=
  (((nlp.word_seg text).filter (fun t => !(!include_punct && t.is_punct))).map Token.text).length

/-- `utils.GN_CODE`. -/
def GN_CODE : String := "grn"

/-- The dictionary returned by `utils.identify_language` on a positive
identification. -/
structure IdentOut where
  lang : String
  score : ℚ
  source_score : ℚ
  voting_method : String
  deriving DecidableEq, Repr

/-- `utils.identify_language`: query the identifier and return the metadata
dictionary when the detected language is Guarani, `None` otherwise. -/
def identify_language (nlp : NLP) (text : String) : Option IdentOut :=
  let result := nlp.identify_languages text
  if result.languages.1 = GN_CODE then
    some { lang := result.languages.1, score := result.languages.2,
           source_score := result.source, voting_method := result.voting }
  else
    none

/-- `text.replace('\n', ' ').replace('\r', ' ')`. -/
def replaceNewlines (s : String) : String :=
  String.mk (s.data.map (fun c => if c = '\n' ∨ c = '\r' then ' ' else c))

/-- The annotated-record dictionary built by `processor.process_text`. -/
structure TextDict where
  text : String
  corpus : String
  corpus_file : String
  source : PyVal
  url : PyVal
  language : String
  language_score : ℚ
  language_script : String
  language_score_source : Option ℚ
  language_identification_method : Option String
  num_words_split : Nat
  num_words_punct_spacy : Nat
  num_words_no_punct_spacy : Nat
  num_chars : Nat
  deriving DecidableEq, Repr

/-- `processor.process_text`: annotate one text sample; returns the record
dictionary together with the four counters the caller accumulates. -/
def process_text (nlp : NLP) (text : String) (corpus_name corpus_file_name : String)
    (source url : PyVal) (lang_code lang_script : String) :
    TextDict × Nat × Nat × Nat × ℚ :=
  let num_words_split := word_count_split text
  let num_words_punct_spacy := word_count_spacy nlp text true
  let num_words_no_punct_spacy := word_count_spacy nlp text false
  let ident_result := identify_language nlp (replaceNewlines text)
  let langData : ℚ × String × Option ℚ × Option String :=
    match ident_result with
    | some r => (r.score, r.lang, some r.source_score, some r.voting_method)
    | none => (0, lang_code, none, none)
  let text_dict : TextDict :=
    { text := text
      corpus := corpus_name
      corpus_file := corpus_file_name
      source := source
      url := url
      language := langData.2.1
      language_score := langData.1
      language_script := lang_script
      language_score_source := langData.2.2.1
      language_identification_method := langData.2.2.2
      num_words_split := num_words_split
      num_words_punct_spacy := num_words_punct_spacy
      num_words_no_punct_spacy := num_words_no_punct_spacy
      num_chars := text.length }
  (text_dict, num_words_split, num_words_punct_spacy, num_words_no_punct_spacy, langData.1)

/-- The per-corpus statistics dictionary (`processor.get_report_dict`). -/
structure ReportDict where
  num_docs : Nat
  num_words_split : Nat
  num_words_punct_spacy : Nat
  num_words_no_punct_spacy : Nat
  num_chars : Nat
  sum_lang_score : ℚ
  avg_words_split : ℚ
  avg_words_punct_spacy : ℚ
  avg_words_no_punct_spacy : ℚ
  avg_chars : ℚ
  avg_language_score : ℚ
  deriving DecidableEq, Repr

/-- `processor.get_report_dict`: zero-initialised counters. -/
def get_report_dict : ReportDict :=
  { num_docs := 0, num_words_split := 0, num_words_punct_spacy := 0,
    num_words_no_punct_spacy := 0, num_chars := 0, sum_lang_score := 0,
    avg_words_split := 0, avg_words_punct_spacy := 0,
    avg_words_no_punct_spacy := 0, avg_chars := 0, avg_language_score := 0 }

/-- `processor.save_report`: if a previously saved report exists, add its
sums into the fresh counters; then, when the merged document count is
positive, recompute every average from the merged sums. -/
def save_report (report_dict : ReportDict) (existing : Option ReportDict) : ReportDict :=
  let d : ReportDict :=
    match existing with
    | none => report_dict
    | some e =>
      { report_dict with
        num_docs := report_dict.num_docs + e.num_docs
        num_words_split := report_dict.num_words_split + e.num_words_split
        num_words_punct_spacy := report_dict.num_words_punct_spacy + e.num_words_punct_spacy
        num_words_no_punct_spacy := report_dict.num_words_no_punct_spacy + e.num_words_no_punct_spacy
        num_chars := report_dict.num_chars + e.num_chars
        sum_lang_score := report_dict.sum_lang_score + e.sum_lang_score }
  if 0 < d.num_docs then
    { d with
      avg_words_split := (d.num_words_split : ℚ) / (d.num_docs : ℚ)
      avg_words_punct_spacy := (d.num_words_punct_spacy : ℚ) / (d.num_docs : ℚ)
      avg_words_no_punct_spacy := (d.num_words_no_punct_spacy : ℚ) / (d.num_docs : ℚ)
      avg_chars := (d.num_chars : ℚ) / (d.num_docs : ℚ)
      avg_language_score := d.sum_lang_score / (d.num_docs : ℚ) }
  else
    d

/-- Claim C8: in every record built by the annotator, the tokenizer-based
word count excluding punctuation never exceeds the count including
punctuation, and `num_chars` is exactly the length of the record's text. -/
theorem C8_record_metric_invariant (nlp : NLP) (text corpus_name corpus_file_name : String)
    (source url : PyVal) (lang_code lang_script : String) :
    (process_text nlp text corpus_name corpus_file_name source url lang_code lang_script).1.num_words_no_punct_spacy
      ≤ (process_text nlp text corpus_name corpus_file_name source url lang_code lang_script).1.num_words_punct_spacy
    ∧ (process_text nlp text corpus_name corpus_file_name source url lang_code lang_script).1.num_chars
      = text.length := by
  constructor
  · show word_count_spacy nlp text false ≤ word_count_spacy nlp text true
    unfold word_count_spacy
    simp only [List.length_map]
    have h1 : (nlp.word_seg text).filter (fun t => !(!true && t.is_punct))
        = nlp.word_seg text := by
      simp
    rw [h1]
    exact List.length_filter_le _ _
  · rfl

/-- A separator rule for line-oriented corpora: the separator string and the
index of the field to keep (`{'str': ..., 'idx': ...}`). -/
structure Separator where
  sepStr : String
  idx : Nat
  deriving DecidableEq, Repr

/-- Add one accepted record's counters into the running report, exactly as
the extraction loops do (`report_dict['num_docs'] += 1`, ...). -/
def bumpReport (r : ReportDict) (text : String) (nws nwp nwnp : Nat) (ls : ℚ) : ReportDict :=
  { r with
    num_docs := r.num_docs + 1
    num_words_split := r.num_words_split + nws
    num_words_punct_spacy := r.num_words_punct_spacy + nwp
    num_words_no_punct_spacy := r.num_words_no_punct_spacy + nwnp
    num_chars := r.num_chars + text.length
    sum_lang_score := r.sum_lang_score + ls }

/-- Outcome of the per-item filtering of
`processor.process_text_collection`: the item is skipped, yields a text to
annotate, or raises. -/
inductive LineRes where
  | skip
  | take (text : String)
  | err (e : PyErr)
  deriving DecidableEq, Repr

/-- The loop-body filtering of `processor.process_text_collection`, in the
source's order: `.strip()` the item (an `AttributeError` on a non-string),
skip empty results, skip lines missing the required line prefix when one
is configured, and when a separator is configured split and keep the
indexed field (an `IndexError` when the index is out of range). -/
def lineRes (item : PyVal) (linePre : String) (separator : Option Separator) : LineRes :=
  match item with
  | PyVal.str s =>
    let t := pyStrip s
    if t = "" then LineRes.skip
    else if linePre ≠ "" ∧ ¬ pyStartsWith t linePre then LineRes.skip
    else
      match separator with
      | none => LineRes.take t
      | some sp =>
        match (pySplit t sp.sepStr).get? sp.idx with
        | some x => LineRes.take x
        | none => LineRes.err PyErr.indexError
  | _ => LineRes.err PyErr.attributeError

/-- Prepend already-extracted records onto the result of processing the
remaining input, propagating a raised exception. -/
def prependData (d : List TextDict) :
    Except PyErr (List TextDict × ReportDict) → Except PyErr (List TextDict × ReportDict)
  | Except.error e => Except.error e
  | Except.ok (ds, r) => Except.ok (d ++ ds, r)

/-- `processor.process_text_collection`: iterate over a collection of
items, filter each as in `lineRes`, and annotate what remains,
accumulating records and counters. -/
def process_text_collection (nlp : NLP) (content_collection : List PyVal)
    (report : ReportDict) (corpus_name corpus_file_name lang_code lang_script : String)
    (linePre : String) (separator : Option Separator) :
    Except PyErr (List TextDict × ReportDict) :=
  match content_collection with
  | [] => Except.ok ([], report)
  | item :: rest =>
    match lineRes item linePre separator with
    | LineRes.err e => Except.error e
    | LineRes.skip =>
      process_text_collection nlp rest report corpus_name corpus_file_name
        lang_code lang_script linePre separator
    | LineRes.take text =>
      match process_text nlp text corpus_name corpus_file_name
          (PyVal.str "unknown") (PyVal.str "unknown") lang_code lang_script with
      | (td, nws, nwp, nwnp, ls) =>
        prependData [td]
          (process_text_collection nlp rest (bumpReport report text nws nwp nwnp ls)
            corpus_name corpus_file_name lang_code lang_script linePre separator)

/-- One row of a data frame as the tabular extractor sees it: the cell of
the configured text column, the cells of the configured source/url columns
(`none` when the column is absent from the row), and the cell of the
`premise` column used by the americasnli fan-out. -/
structure Row where
  text : PyVal
  source : Option PyVal
  url : Option PyVal
  premise : PyVal
  deriving DecidableEq, Repr

/-- `pandas.Series.unique` on a column: values in order of first
occurrence, duplicates removed. -/
def uniqueKeepFirst : List PyVal → List PyVal :=
  go []
where
  go (seen : List PyVal) : List PyVal → List PyVal
  | [] => []
  | x :: xs => if x ∈ seen then go seen xs else x :: go (x :: seen) xs

/-- The row loop of `processor.process_csv_corpus`: keep rows whose text
cell is a string, defaulting absent source/url columns to `'unknown'`;
non-string text cells are excluded (logged, never fatal). -/
def process_csv_rows (nlp : NLP) (rows : List Row) (report : ReportDict)
    (corpus_name corpus_file_name lang_code lang_script : String) :
    List TextDict × ReportDict :=
  match rows with
  | [] => ([], report)
  | row :: rest =>
    match row.text with
    | PyVal.str s =>
      let source := row.source.getD (PyVal.str "unknown")
      let url := row.url.getD (PyVal.str "unknown")
      match process_text nlp s corpus_name corpus_file_name source url lang_code lang_script with
      | (td, nws, nwp, nwnp, ls) =>
        match process_csv_rows nlp rest (bumpReport report s nws nwp nwnp ls)
            corpus_name corpus_file_name lang_code lang_script with
        | (ds, r) => (td :: ds, r)
    | _ => process_csv_rows nlp rest report corpus_name corpus_file_name lang_code lang_script

/-- `processor.process_csv_corpus` (on an already-read data frame): process
the rows, then, for the `americasnli` corpus only, additionally process the
column of unique premise values as a text collection (the fan-out
exception). -/
def process_csv_corpus (nlp : NLP) (rows : List Row)
    (corpus_name corpus_file_name lang_code lang_script : String) :
    Except PyErr (List TextDict × ReportDict) :=
  match process_csv_rows nlp rows get_report_dict corpus_name corpus_file_name lang_code lang_script with
  | (data, report) =>
    if corpus_name = "americasnli" then
      prependData data
        (process_text_collection nlp (uniqueKeepFirst (rows.map Row.premise)) report
          corpus_name corpus_file_name lang_code lang_script "" none)
    else
      Except.ok (data, report)

/-- One parsed line of a line-JSON corpus: the two named fields the
extractor reads, `none` when the key is absent from the record. -/
structure JsonRec where
  flores_passage : Option PyVal
  question : Option PyVal
  deriving DecidableEq, Repr

/-- A Python dictionary lookup: `KeyError` when the key is absent. -/
def getField : Option PyVal → String → Except PyErr PyVal
  | some v, _ => Except.ok v
  | none, k => Except.error (PyErr.keyError k)

/-- The inner field loop of `processor.process_jsonl_corpus`: emit one
record per value that is a string, silently skipping non-strings. -/
def process_jsonl_vals (nlp : NLP) (vals : List PyVal) (report : ReportDict)
    (corpus_name corpus_file_name lang_code lang_script : String) :
    List TextDict × ReportDict :=
  match vals with
  | [] => ([], report)
  | v :: rest =>
    match v with
    | PyVal.str s =>
      match process_text nlp s corpus_name corpus_file_name
          (PyVal.str "unknown") (PyVal.str "unknown") lang_code lang_script with
      | (td, nws, nwp, nwnp, ls) =>
        match process_jsonl_vals nlp rest (bumpReport report s nws nwp nwnp ls)
            corpus_name corpus_file_name lang_code lang_script with
        | (ds, r) => (td :: ds, r)
    | _ => process_jsonl_vals nlp rest report corpus_name corpus_file_name lang_code lang_script

/-- The record loop of `processor.process_jsonl_corpus`: for each parsed
line, build the list `[line['flores_passage'], line['question']]` (both
lookups happen before any field is processed, so a missing key raises a
`KeyError`) and process its string members. -/
def process_jsonl_lines (nlp : NLP) (recs : List JsonRec) (report : ReportDict)
    (corpus_name corpus_file_name lang_code lang_script : String) :
    Except PyErr (List TextDict × ReportDict) :=
  match recs with
  | [] => Except.ok ([], report)
  | jrec :: rest =>
    match getField jrec.flores_passage "flores_passage" with
    | Except.error e => Except.error e
    | Except.ok fp =>
      match getField jrec.question "question" with
      | Except.error e => Except.error e
      | Except.ok q =>
        match process_jsonl_vals nlp [fp, q] report
            corpus_name corpus_file_name lang_code lang_script with
        | (d1, r1) =>
          prependData d1
            (process_jsonl_lines nlp rest r1 corpus_name corpus_file_name lang_code lang_script)

/-- `processor.process_jsonl_corpus` on an already-read list of records. -/
def process_jsonl_corpus (nlp : NLP) (recs : List JsonRec)
    (corpus_name corpus_file_name lang_code lang_script : String) :
    Except PyErr (List TextDict × ReportDict) :=
  process_jsonl_lines nlp recs get_report_dict corpus_name corpus_file_name lang_code lang_script

/-- A raw corpus file, discriminated by extension as in
`processor.process_corpora`: its parsed content as the extractor sees it
(for tabular formats the data frame produced by `read_csv_corpus`, shared
by the reconciliation counter, which reads the same file the same way). -/
inductive RawFile where
  | csv (rows : List Row)
  | txt (lines : List String)
  | tsv (rows : List Row)
  | xml (texts : List PyVal)
  | jsonl (recs : List JsonRec)
  | other
  deriving DecidableEq, Repr

/-- Python's `needle in hay` substring test. -/
def isSubstring (needle hay : String) : Bool :=
  (List.range (hay.length + 1)).any
    (fun i => ((hay.toList.drop i).take needle.length) == needle.toList)

/-- `processor.prepare_processing_cvs_corpus`: pick the output corpus name
from the directory name; an unrecognised corpus raises. -/
def csvConfig (corpus_dir_name : String) : Except PyErr String :=
  if isSubstring "jojajovai" corpus_dir_name then Except.ok "jojajovai"
  else if isSubstring "culturax" corpus_dir_name then Except.ok "culturax"
  else Except.error PyErr.unknownCorpusError

/-- `processor.prepare_processing_txt_corpus`: the separator rule and
required line prefix for each line-oriented corpus. -/
def txtConfig (corpus_dir_name : String) : Option Separator × String :=
  if corpus_dir_name = "joemo" ∨ corpus_dir_name = "joff+" ∨
     corpus_dir_name = "jofun" ∨ corpus_dir_name = "josa" then
    (some { sepStr := " ||| ", idx := 0 }, "")
  else if corpus_dir_name = "gua_spa" then
    (some { sepStr := ": ", idx := 1 }, "#")
  else if corpus_dir_name = "grammar" then
    (some { sepStr := ".,", idx := 1 }, "")
  else
    (none, "")

/-- `processor.prepare_processing_tsv_corpus`: the set of recognised
tab-separated corpora; any other raises. -/
def tsvKnown (c : String) : Bool :=
  c == "americasnlp2022" || c == "americasnli" || c == "bible" ||
  c == "ancora" || c == "americasnlp2024" || c == "tatoeba"

/-- The per-file dispatch of `processor.process_corpora`: route one raw
file to its extractor and return the data/report pair that would be saved,
`none` for a file whose extension is not supported (skipped with a
warning). -/
def processFile (nlp : NLP) (corpus_dir_name fname : String) (file : RawFile) :
    Except PyErr (Option (List TextDict × ReportDict)) :=
  match file with
  | RawFile.csv rows =>
    match csvConfig corpus_dir_name with
    | Except.error e => Except.error e
    | Except.ok corpus_name =>
      match process_csv_corpus nlp rows corpus_name fname "grn" "Latn" with
      | Except.error e => Except.error e
      | Except.ok r => Except.ok (some r)
  | RawFile.txt lines =>
    match process_text_collection nlp (lines.map PyVal.str) get_report_dict
        corpus_dir_name fname "grn" "Latn" (txtConfig corpus_dir_name).2
        (txtConfig corpus_dir_name).1 with
    | Except.error e => Except.error e
    | Except.ok r => Except.ok (some r)
  | RawFile.tsv rows =>
    if tsvKnown corpus_dir_name then
      match process_csv_corpus nlp rows corpus_dir_name fname "grn" "Latn" with
      | Except.error e => Except.error e
      | Except.ok r => Except.ok (some r)
    else Except.error PyErr.unknownCorpusError
  | RawFile.xml texts =>
    match process_text_collection nlp texts get_report_dict
        corpus_dir_name fname "grn" "Latn" "" none with
    | Except.error e => Except.error e
    | Except.ok r => Except.ok (some r)
  | RawFile.jsonl recs =>
    match process_jsonl_corpus nlp recs corpus_dir_name fname "grn" "Latn" with
    | Except.error e => Except.error e
    | Except.ok r => Except.ok (some r)
  | RawFile.other => Except.ok none

/-- The durable per-corpus state: the persisted report file and the record
store (`<corpus>.jsonl`), each `none` when the file does not exist. -/
structure CorpusState where
  report : Option ReportDict
  store : Option (List TextDict)
  deriving DecidableEq, Repr

/-- `processor.save_processing`: append the fresh records to the record
store (creating it if absent) and save the report merged with any
previously persisted one. -/
def save_processing (s : CorpusState) (data : List TextDict) (report : ReportDict) : CorpusState :=
  { report := some (save_report report s.report)
    store := some (s.store.getD [] ++ data) }

/-- The per-file loop of `processor.process_corpora` for one corpus
directory: process each file in turn, persisting after each one. -/
def processCorpusFiles (nlp : NLP) (corpus_dir_name : String)
    (files : List (String × RawFile)) (s : CorpusState) : Except PyErr CorpusState :=
  match files with
  | [] => Except.ok s
  | (fname, file) :: rest =>
    match processFile nlp corpus_dir_name fname file with
    | Except.error e => Except.error e
    | Except.ok none => processCorpusFiles nlp corpus_dir_name rest s
    | Except.ok (some (data, report)) =>
      processCorpusFiles nlp corpus_dir_name rest (save_processing s data report)

/-- The per-corpus skip/overwrite policy of `processor.process_corpora`:
if the corpus report file exists, skip the corpus unless overwriting, in
which case delete both the report and the record store (`os.remove` on a
missing store raises `FileNotFoundError`) and reprocess from scratch. -/
def process_corpus_dir (nlp : NLP) (corpus_dir_name : String)
    (files : List (String × RawFile)) (overwrite : Bool) (s : CorpusState) :
    Except PyErr CorpusState :=
  match s.report with
  | some _ =>
    if overwrite then
      match s.store with
      | none => Except.error PyErr.fileNotFoundError
      | some _ => processCorpusFiles nlp corpus_dir_name files { report := none, store := none }
    else Except.ok s
  | none => processCorpusFiles nlp corpus_dir_name files s

/-- The regular expression `^#[A-Za-z0-9]+:` used by the reconciliation
counter for the gua_spa corpus, applied with `re.match` to the raw line. -/
def guaSpaMatch (line : String) : Bool :=
  match line.toList with
  | '#' :: rest =>
    let a := rest.takeWhile (fun c => c.isAlphanum)
    match a, rest.drop a.length with
    | [], _ => false
    | _ :: _, ':' :: _ => true
    | _, _ => false
  | _ => false

/-- The per-file increment of `processor.compute_num_raw_records`: the
independent expected raw record count for one file, with the per-corpus
exceptions (prefix-filtered line count for gua_spa, unique-premise fan-out
for americasnli, the ×2 field multiplier for belele). -/
def compute_num_raw_records_file (corpus_dir_name : String) (file : RawFile) : Nat :=
  match file with
  | RawFile.csv rows => rows.length
  | RawFile.txt lines =>
    if corpus_dir_name = "gua_spa" then (lines.filter guaSpaMatch).length
    else lines.length
  | RawFile.tsv rows =>
    if corpus_dir_name = "americasnli" then
      rows.length + (uniqueKeepFirst (rows.map Row.premise)).length
    else rows.length
  | RawFile.xml texts => texts.length
  | RawFile.jsonl recs => recs.length * (if corpus_dir_name = "belele" then 2 else 1)
  | RawFile.other => 0

/-- One file of a processed corpus directory as the checker sees it: the
report (`*_report.json`, with its `num_docs`), the record store
(`*.jsonl`, with its line count), or an unrelated file. -/
inductive ProcFile where
  | reportFile (num_docs : Nat)
  | storeFile (num_records : Nat)
  | otherFile
  deriving DecidableEq, Repr

/-- One processed corpus directory. -/
structure ProcCorpus where
  name : String
  files : List ProcFile
  deriving DecidableEq, Repr

/-- The failures `processor.check_processed_corpora` can raise: the two
assertion errors (each naming the corpus and the expected and actual
counts) and the dictionary lookup failure. -/
inductive CheckErr where
  | keyError (corpus : String)
  | reportAssert (corpus : String) (expected reported : Nat)
  | storeAssert (corpus : String) (expected processed : Nat)
  deriving DecidableEq, Repr

/-- The per-file loop of `processor.check_processed_corpora` for one
corpus: look up the expected count and assert it against the report's
`num_docs` and against the record store's line count. -/
def checkFiles (raw : String → Option Nat) (corpus : String) :
    List ProcFile → Except CheckErr Unit
  | [] => Except.ok ()
  | f :: rest =>
    match raw corpus with
    | none => Except.error (CheckErr.keyError corpus)
    | some expected =>
      match f with
      | ProcFile.reportFile n =>
        if n = expected then checkFiles raw corpus rest
        else Except.error (CheckErr.reportAssert corpus expected n)
      | ProcFile.storeFile m =>
        if m = expected then checkFiles raw corpus rest
        else Except.error (CheckErr.storeAssert corpus expected m)
      | ProcFile.otherFile => checkFiles raw corpus rest

/-- `processor.check_processed_corpora`: check each corpus in turn; the
first assertion failure aborts the whole check, and on success one OK line
per corpus is printed (returned here as the log). -/
def check_processed_corpora (corpora : List ProcCorpus) (raw : String → Option Nat) :
    Except CheckErr (List String) :=
  match corpora with
  | [] => Except.ok []
  | c :: rest =>
    match checkFiles raw c.name c.files with
    | Except.error e => Except.error e
    | Except.ok _ =>
      match check_processed_corpora rest raw with
      | Except.error e => Except.error e
      | Except.ok logs => Except.ok (("Ok " ++ c.name ++ "!") :: logs)

@[simp]
theorem bumpReport_num_docs (r : ReportDict) (t : String) (a b c : Nat) (q : ℚ) :
    (bumpReport r t a b c q).num_docs = r.num_docs + 1 := rfl

theorem prependData_eq_ok (d : List TextDict) (x : Except PyErr (List TextDict × ReportDict))
    (ds : List TextDict) (r : ReportDict) :
    prependData d x = Except.ok (ds, r) ↔ ∃ ds2, x = Except.ok (ds2, r) ∧ ds = d ++ ds2 := by
  cases x with
  | error e => simp [prependData]
  | ok p =>
    cases p with
    | mk a b =>
      simp only [prependData, Except.ok.injEq, Prod.mk.injEq]
      constructor
      · rintro ⟨h1, h2⟩
        exact ⟨a, by simp [h2, h1.symm]⟩
      · rintro ⟨ds2, ⟨h3, h4⟩, h2⟩
        subst h3
        exact ⟨h2.symm, h4⟩

@[simp]
theorem save_report_num_docs_none (f : ReportDict) :
    (save_report f none).num_docs = f.num_docs := by
  by_cases h : 0 < f.num_docs <;> simp [save_report, h]

@[simp]
theorem save_report_num_docs_some (f e : ReportDict) :
    (save_report f (some e)).num_docs = f.num_docs + e.num_docs := by
  by_cases h : 0 < f.num_docs + e.num_docs <;> simp [save_report, h]

theorem process_csv_rows_num_docs (nlp : NLP) (rows : List Row) :
    ∀ report : ReportDict, ∀ cn cf lc ls : String,
    (process_csv_rows nlp rows report cn cf lc ls).2.num_docs
      = report.num_docs + (process_csv_rows nlp rows report cn cf lc ls).1.length := by
  induction rows with
  | nil => intro report cn cf lc ls; simp [process_csv_rows]
  | cons row rest ih =>
    intro report cn cf lc ls
    cases h : row.text with
    | str s =>
      simp only [process_csv_rows, h]
      rw [ih]
      simp only [bumpReport_num_docs, List.length_cons]
      omega
    | num n => simp only [process_csv_rows, h]; rw [ih]
    | pynone => simp only [process_csv_rows, h]; rw [ih]

theorem process_jsonl_vals_num_docs (nlp : NLP) (vals : List PyVal) :
    ∀ report : ReportDict, ∀ cn cf lc ls : String,
    (process_jsonl_vals nlp vals report cn cf lc ls).2.num_docs
      = report.num_docs + (process_jsonl_vals nlp vals report cn cf lc ls).1.length := by
  induction vals with
  | nil => intro report cn cf lc ls; simp [process_jsonl_vals]
  | cons v rest ih =>
    intro report cn cf lc ls
    cases v with
    | str s =>
      simp only [process_jsonl_vals]
      rw [ih]
      simp only [bumpReport_num_docs, List.length_cons]
      omega
    | num n => simp only [process_jsonl_vals]; rw [ih]
    | pynone => simp only [process_jsonl_vals]; rw [ih]

theorem process_text_collection_num_docs (nlp : NLP) (items : List PyVal) :
    ∀ report : ReportDict, ∀ cn cf lc ls pre : String, ∀ sep : Option Separator,
    ∀ ds : List TextDict, ∀ r : ReportDict,
    process_text_collection nlp items report cn cf lc ls pre sep = Except.ok (ds, r) →
    r.num_docs = report.num_docs + ds.length := by
  induction items with
  | nil =>
    intro report cn cf lc ls pre sep ds r h
    simp only [process_text_collection] at h
    cases h
    simp
  | cons item rest ih =>
    intro report cn cf lc ls pre sep ds r h
    simp only [process_text_collection] at h
    split at h
    · cases h
    · exact ih report cn cf lc ls pre sep ds r h
    · rw [prependData_eq_ok] at h
      obtain ⟨ds2, hrec, rfl⟩ := h
      have hi := ih _ cn cf lc ls pre sep ds2 r hrec
      simp only [bumpReport_num_docs, List.length_append, List.length_singleton] at hi ⊢
      omega

@[simp]
theorem get_report_dict_num_docs : get_report_dict.num_docs = 0 := rfl

theorem process_jsonl_lines_num_docs (nlp : NLP) (recs : List JsonRec) :
    ∀ report : ReportDict, ∀ cn cf lc ls : String, ∀ ds : List TextDict, ∀ r : ReportDict,
    process_jsonl_lines nlp recs report cn cf lc ls = Except.ok (ds, r) →
    r.num_docs = report.num_docs + ds.length := by
  induction recs with
  | nil =>
    intro report cn cf lc ls ds r h
    simp only [process_jsonl_lines] at h
    cases h
    simp
  | cons jrec rest ih =>
    intro report cn cf lc ls ds r h
    simp only [process_jsonl_lines] at h
    cases hfp : jrec.flores_passage with
    | none => rw [hfp] at h; simp [getField] at h
    | some fp =>
      rw [hfp] at h
      cases hq : jrec.question with
      | none => rw [hq] at h; simp [getField] at h
      | some q =>
        rw [hq] at h
        simp only [getField] at h
        rw [prependData_eq_ok] at h
        obtain ⟨ds2, hrec, rfl⟩ := h
        have hv := process_jsonl_vals_num_docs nlp [fp, q] report cn cf lc ls
        have hi := ih _ cn cf lc ls ds2 r hrec
        rw [List.length_append]
        omega

theorem process_csv_corpus_num_docs (nlp : NLP) (rows : List Row)
    (cn cf lc ls : String) (data : List TextDict) (rep : ReportDict)
    (h : process_csv_corpus nlp rows cn cf lc ls = Except.ok (data, rep)) :
    rep.num_docs = data.length := by
  simp only [process_csv_corpus] at h
  have h1 := process_csv_rows_num_docs nlp rows get_report_dict cn cf lc ls
  by_cases hc : cn = "americasnli"
  · rw [if_pos hc] at h
    rw [prependData_eq_ok] at h
    obtain ⟨ds2, hrec, rfl⟩ := h
    have h2 := process_text_collection_num_docs nlp
      (uniqueKeepFirst (rows.map Row.premise)) _ cn cf lc ls "" none ds2 rep hrec
    rw [List.length_append]
    simp only [get_report_dict_num_docs] at h1
    omega
  · rw [if_neg hc] at h
    cases h
    simp only [get_report_dict_num_docs] at h1
    omega

theorem process_jsonl_corpus_num_docs (nlp : NLP) (recs : List JsonRec)
    (cn cf lc ls : String) (data : List TextDict) (rep : ReportDict)
    (h : process_jsonl_corpus nlp recs cn cf lc ls = Except.ok (data, rep)) :
    rep.num_docs = data.length := by
  have := process_jsonl_lines_num_docs nlp recs get_report_dict cn cf lc ls data rep h
  simpa using this

theorem processFile_num_docs (nlp : NLP) (cdn fname : String) (file : RawFile)
    (data : List TextDict) (rep : ReportDict)
    (h : processFile nlp cdn fname file = Except.ok (some (data, rep))) :
    rep.num_docs = data.length := by
  cases file with
  | csv rows =>
    simp only [processFile] at h
    cases hc : csvConfig cdn with
    | error e => simp only [hc] at h; cases h
    | ok cname =>
      simp only [hc] at h
      cases hp : process_csv_corpus nlp rows cname fname "grn" "Latn" with
      | error e => simp only [hp] at h; cases h
      | ok p =>
        simp only [hp] at h
        cases h
        exact process_csv_corpus_num_docs nlp rows cname fname "grn" "Latn" data rep hp
  | txt lines =>
    simp only [processFile] at h
    cases hp : process_text_collection nlp (lines.map PyVal.str) get_report_dict cdn fname
        "grn" "Latn" (txtConfig cdn).2 (txtConfig cdn).1 with
    | error e => simp only [hp] at h; cases h
    | ok p =>
      simp only [hp] at h
      cases h
      have := process_text_collection_num_docs nlp (lines.map PyVal.str) get_report_dict
        cdn fname "grn" "Latn" (txtConfig cdn).2 (txtConfig cdn).1 data rep hp
      simpa using this
  | tsv rows =>
    simp only [processFile] at h
    by_cases ht : tsvKnown cdn
    · rw [if_pos ht] at h
      cases hp : process_csv_corpus nlp rows cdn fname "grn" "Latn" with
      | error e => simp only [hp] at h; cases h
      | ok p =>
        simp only [hp] at h
        cases h
        exact process_csv_corpus_num_docs nlp rows cdn fname "grn" "Latn" data rep hp
    · rw [if_neg ht] at h; cases h
  | xml texts =>
    simp only [processFile] at h
    cases hp : process_text_collection nlp texts get_report_dict cdn fname
        "grn" "Latn" "" none with
    | error e => simp only [hp] at h; cases h
    | ok p =>
      simp only [hp] at h
      cases h
      have := process_text_collection_num_docs nlp texts get_report_dict
        cdn fname "grn" "Latn" "" none data rep hp
      simpa using this
  | jsonl recs =>
    simp only [processFile] at h
    cases hp : process_jsonl_corpus nlp recs cdn fname "grn" "Latn" with
    | error e => simp only [hp] at h; cases h
    | ok p =>
      simp only [hp] at h
      cases h
      exact process_jsonl_corpus_num_docs nlp recs cdn fname "grn" "Latn" data rep hp
  | other =>
    simp only [processFile] at h
    simp at h

/-- `num_docs` of the persisted report of a corpus, 0 when no report file
exists. -/
def reportNumDocs (s : CorpusState) : Nat :=
  match s.report with
  | some r => r.num_docs
  | none => 0

/-- Number of record lines in the persisted record store of a corpus, 0
when the store file does not exist. -/
def storeNumLines (s : CorpusState) : Nat :=
  match s.store with
  | some l => l.length
  | none => 0

theorem save_processing_counts (s : CorpusState) (data : List TextDict) (rep : ReportDict) :
    reportNumDocs (save_processing s data rep) = rep.num_docs + reportNumDocs s ∧
    storeNumLines (save_processing s data rep) = storeNumLines s + data.length := by
  cases s with
  | mk r st =>
    cases r <;> cases st <;>
      simp [save_processing, reportNumDocs, storeNumLines]

theorem processCorpusFiles_invariant (nlp : NLP) (cdn : String)
    (files : List (String × RawFile)) :
    ∀ s s' : CorpusState, processCorpusFiles nlp cdn files s = Except.ok s' →
    reportNumDocs s = storeNumLines s →
    reportNumDocs s' = storeNumLines s' := by
  induction files with
  | nil =>
    intro s s' h hi
    simp only [processCorpusFiles] at h
    cases h
    exact hi
  | cons f rest ih =>
    intro s s' h hi
    obtain ⟨fname, file⟩ := f
    simp only [processCorpusFiles] at h
    cases hp : processFile nlp cdn fname file with
    | error e => simp only [hp] at h; cases h
    | ok o =>
      cases o with
      | none => simp only [hp] at h; exact ih s s' h hi
      | some p =>
        simp only [hp] at h
        apply ih _ s' h
        have hd := processFile_num_docs nlp cdn fname file p.1 p.2 (by rw [hp])
        obtain ⟨hc1, hc2⟩ := save_processing_counts s p.1 p.2
        omega

/-- Claim C2: after a corpus is processed from scratch (no pre-existing
report or record store), however many files it had, the `num_docs` of the
persisted report equals the number of record lines in the persisted record
store. -/
theorem C2_report_matches_store (nlp : NLP) (cdn : String)
    (files : List (String × RawFile)) (s' : CorpusState)
    (h : processCorpusFiles nlp cdn files { report := none, store := none } = Except.ok s') :
    reportNumDocs s' = storeNumLines s' :=
  processCorpusFiles_invariant nlp cdn files { report := none, store := none } s' h rfl

/-- Whether an `Except` value is a success. -/
def exceptIsOk {ε α : Type} : Except ε α → Bool
  | Except.ok _ => true
  | Except.error _ => false

theorem eq_ok_getD {ε α : Type} (x : Except ε α) (d : α) (h : exceptIsOk x = true) :
    x = Except.ok (x.toOption.getD d) := by
  cases x with
  | error e => simp [exceptIsOk] at h
  | ok v => rfl

/-- Concrete corpus used to witness claim C2: one line-oriented file with a
blank line and one markup file. -/
def c2wFiles : List (String × RawFile) :=
  [("a.txt", RawFile.txt ["uno", "", "dos"]), ("b.xml", RawFile.xml [PyVal.str " x "])]

/-- The state persisted after processing the witness corpus for C2. -/
def c2wState : CorpusState :=
  (processCorpusFiles trivialNLP "c" c2wFiles { report := none, store := none }).toOption.getD
    { report := none, store := none }

/-- Witness for claim C2 at a concrete two-file corpus. -/
theorem C2_witness : reportNumDocs c2wState = storeNumLines c2wState :=
  C2_report_matches_store trivialNLP "c" c2wFiles c2wState
    (eq_ok_getD _ _ (by rfl))

theorem processCorpusFiles_report_indep (nlp : NLP) (cdn : String)
    (files : List (String × RawFile)) :
    ∀ r : Option ReportDict, ∀ st st' : Option (List TextDict), ∀ t : CorpusState,
    processCorpusFiles nlp cdn files { report := r, store := st } = Except.ok t →
    ∃ u, processCorpusFiles nlp cdn files { report := r, store := st' } = Except.ok u ∧
      u.report = t.report := by
  induction files with
  | nil =>
    intro r st st' t h
    simp only [processCorpusFiles] at h
    cases h
    exact ⟨{ report := r, store := st' }, rfl, rfl⟩
  | cons f rest ih =>
    intro r st st' t h
    obtain ⟨fname, file⟩ := f
    simp only [processCorpusFiles] at h ⊢
    cases hp : processFile nlp cdn fname file with
    | error e => simp only [hp] at h; cases h
    | ok o =>
      cases o with
      | none =>
        simp only [hp] at h ⊢
        exact ih r st st' t h
      | some p =>
        simp only [hp] at h ⊢
        simp only [save_processing] at h ⊢
        exact ih (some (save_report p.2 r)) (some (Option.getD st [] ++ p.1))
          (some (Option.getD st' [] ++ p.1)) t h

theorem processCorpusFiles_pair_isSome (nlp : NLP) (cdn : String)
    (files : List (String × RawFile)) :
    ∀ s t : CorpusState, processCorpusFiles nlp cdn files s = Except.ok t →
    (s.report.isSome = true → s.store.isSome = true) →
    (t.report.isSome = true → t.store.isSome = true) := by
  induction files with
  | nil =>
    intro s t h hi
    simp only [processCorpusFiles] at h
    cases h
    exact hi
  | cons f rest ih =>
    intro s t h hi
    obtain ⟨fname, file⟩ := f
    simp only [processCorpusFiles] at h
    cases hp : processFile nlp cdn fname file with
    | error e => simp only [hp] at h; cases h
    | ok o =>
      cases o with
      | none => simp only [hp] at h; exact ih s t h hi
      | some p =>
        simp only [hp] at h
        exact ih _ t h (by intro _; simp [save_processing])

theorem processCorpusFiles_report_none (nlp : NLP) (cdn : String)
    (files : List (String × RawFile)) :
    ∀ s t : CorpusState, processCorpusFiles nlp cdn files s = Except.ok t →
    t.report = none → t = s := by
  induction files with
  | nil =>
    intro s t h _
    simp only [processCorpusFiles] at h
    cases h
    rfl
  | cons f rest ih =>
    intro s t h ht
    obtain ⟨fname, file⟩ := f
    simp only [processCorpusFiles] at h
    cases hp : processFile nlp cdn fname file with
    | error e => simp only [hp] at h; cases h
    | ok o =>
      cases o with
      | none => simp only [hp] at h; exact ih s t h ht
      | some p =>
        simp only [hp] at h
        -- after a save the report is `some`, so the final report cannot be `none`
        exfalso
        have hsome : (save_processing s p.1 p.2).report.isSome = true → 
            (save_processing s p.1 p.2).store.isSome = true := by
          intro _; simp [save_processing]
        have hkeep : ∀ u v : CorpusState, processCorpusFiles nlp cdn rest u = Except.ok v →
            u.report.isSome = true → v.report.isSome = true := by
          clear ih h ht hp
          induction rest with
          | nil =>
            intro u v h hu
            simp only [processCorpusFiles] at h
            cases h
            exact hu
          | cons g rest2 ih2 =>
            intro u v h hu
            obtain ⟨gname, gfile⟩ := g
            simp only [processCorpusFiles] at h
            cases hq : processFile nlp cdn gname gfile with
            | error e => simp only [hq] at h; cases h
            | ok o2 =>
              cases o2 with
              | none => simp only [hq] at h; exact ih2 u v h hu
              | some q =>
                simp only [hq] at h
                exact ih2 _ v h (by simp [save_processing])
        have := hkeep _ t h (by simp [save_processing])
        rw [ht] at this
        simp at this

/-- Claim C4: processing a corpus directory skips entirely when its report
file exists and overwrite is off; and with overwrite on, a second run over
the same raw files from the state left by a first successful run succeeds
and persists the identical report (no compounding), because the existing
report and record store are deleted and the corpus is reprocessed from
scratch. -/
theorem C4_overwrite_idempotent (nlp : NLP) (cdn : String)
    (files : List (String × RawFile)) (s : CorpusState) :
    (s.report.isSome = true → process_corpus_dir nlp cdn files false s = Except.ok s) ∧
    (∀ s1, process_corpus_dir nlp cdn files true s = Except.ok s1 →
      ∃ s2, process_corpus_dir nlp cdn files true s1 = Except.ok s2 ∧
        s2.report = s1.report) := by
  constructor
  · intro hs
    cases s with
    | mk r st =>
      cases r with
      | none => simp at hs
      | some rp => simp [process_corpus_dir]
  · intro s1 h1
    cases s with
    | mk r st =>
      cases r with
      | some rp =>
        cases st with
        | none => simp [process_corpus_dir] at h1
        | some stl =>
          simp only [process_corpus_dir, if_pos] at h1
          -- h1 : processCorpusFiles nlp cdn files ⟨none, none⟩ = ok s1
          cases hs1r : s1.report with
          | none =>
            have heq : s1 = { report := none, store := none } :=
              processCorpusFiles_report_none nlp cdn files _ s1 h1 hs1r
            refine ⟨s1, ?_, hs1r⟩
            rw [heq] at h1 ⊢
            simpa [process_corpus_dir] using h1
          | some rp1 =>
            have hstore : s1.store.isSome = true := by
              refine processCorpusFiles_pair_isSome nlp cdn files _ s1 h1 ?_ ?_
              · intro hx; simp at hx
              · rw [hs1r]; rfl
            refine ⟨s1, ?_, hs1r⟩
            cases s1 with
            | mk r1 st1 =>
              simp only at hs1r
              subst hs1r
              cases st1 with
              | none => simp at hstore
              | some stl1 => simpa [process_corpus_dir] using h1
      | none =>
        simp only [process_corpus_dir] at h1
        -- h1 : processCorpusFiles nlp cdn files ⟨none, st⟩ = ok s1
        cases hs1r : s1.report with
        | none =>
          have heq : s1 = { report := none, store := st } :=
            processCorpusFiles_report_none nlp cdn files _ s1 h1 hs1r
          refine ⟨s1, ?_, hs1r⟩
          rw [heq] at h1 ⊢
          simpa [process_corpus_dir] using h1
        | some rp1 =>
          have hstore : s1.store.isSome = true := by
            refine processCorpusFiles_pair_isSome nlp cdn files _ s1 h1 ?_ ?_
            · intro hx; simp at hx
            · rw [hs1r]; rfl
          obtain ⟨u, hu, hur⟩ :=
            processCorpusFiles_report_indep nlp cdn files none st none s1 h1
          refine ⟨u, ?_, hur.trans hs1r⟩
          cases s1 with
          | mk r1 st1 =>
            simp only at hs1r
            subst hs1r
            cases st1 with
            | none => simp at hstore
            | some stl1 => simpa [process_corpus_dir] using hu

/-- Concrete prior state used to witness claim C4: a corpus whose report
file and (empty) record store already exist. -/
def c4wPrior : CorpusState :=
  { report := some get_report_dict, store := some [] }

/-- Concrete raw files used to witness claim C4. -/
def c4wFiles : List (String × RawFile) :=
  [("f.txt", RawFile.txt ["hola mundo"])]

/-- The state left by the first overwrite run of the C4 witness corpus. -/
def c4wRun1 : CorpusState :=
  (process_corpus_dir trivialNLP "x" c4wFiles true c4wPrior).toOption.getD c4wPrior

/-- Witness for claim C4: with the report present, the corpus is skipped
without overwrite, and a second overwrite run reproduces the report of the
first. -/
theorem C4_witness :
    process_corpus_dir trivialNLP "x" c4wFiles false c4wPrior = Except.ok c4wPrior ∧
    ∃ s2, process_corpus_dir trivialNLP "x" c4wFiles true c4wRun1 = Except.ok s2 ∧
      s2.report = c4wRun1.report := by
  constructor
  · exact (C4_overwrite_idempotent trivialNLP "x" c4wFiles c4wPrior).1 (by rfl)
  · exact (C4_overwrite_idempotent trivialNLP "x" c4wFiles c4wPrior).2 c4wRun1
      (eq_ok_getD _ _ (by rfl))

/-- Whether a dynamic value is a string (`isinstance(text, str)`). -/
def isStrVal : PyVal → Bool
  | PyVal.str _ => true
  | _ => false

/-- The texts of the records produced by a collection-processing run. -/
def collectionTexts (r : Except PyErr (List TextDict × ReportDict)) :
    Except PyErr (List String) :=
  match r with
  | Except.error e => Except.error e
  | Except.ok p => Except.ok (p.1.map TextDict.text)

theorem collectionTexts_prependData (d : List TextDict)
    (x : Except PyErr (List TextDict × ReportDict)) :
    collectionTexts (prependData d x)
      = match collectionTexts x with
        | Except.error e => Except.error e
        | Except.ok ts => Except.ok (d.map TextDict.text ++ ts) := by
  cases x with
  | error e => simp [prependData, collectionTexts]
  | ok p => simp [prependData, collectionTexts]

/-- The record text the spec's line-oriented contract prescribes for one
input line, `none` when the line is discarded: strip whitespace, discard
empty lines, discard lines missing the required prefix when one is
configured, and with a separator rule split and take the indicated field. -/
def lineSpec (pre : String) (sep : Option Separator) (item : PyVal) : Option String :=
  match item with
  | PyVal.str s =>
    let t := pyStrip s
    if t = "" then none
    else if pre ≠ "" ∧ ¬ pyStartsWith t pre then none
    else
      match sep with
      | none => some t
      | some sp => some ((pySplit t sp.sepStr).getD sp.idx "")
  | _ => none

/-- Side condition under which a line is processed without raising: it is
a string, and whenever it survives the emptiness and prefix filters the
separator index is in range. -/
def lineOkB (pre : String) (sep : Option Separator) (v : PyVal) : Bool :=
  match v with
  | PyVal.str s =>
    let t := pyStrip s
    (t == "") || (!(pre == "") && !(pyStartsWith t pre)) ||
      (match sep with
       | none => true
       | some sp => decide (sp.idx < (pySplit t sp.sepStr).length))
  | _ => false

theorem lineRes_take_of_ok (s : String) (pre : String) (sep : Option Separator)
    (hok : lineOkB pre sep (PyVal.str s) = true) (h1 : ¬ pyStrip s = "")
    (h2 : ¬ (pre ≠ "" ∧ ¬ pyStartsWith (pyStrip s) pre)) :
    ∃ x, lineRes (PyVal.str s) pre sep = LineRes.take x ∧
      lineSpec pre sep (PyVal.str s) = some x := by
  cases sep with
  | none =>
    refine ⟨pyStrip s, ?_, ?_⟩
    · simp only [lineRes]
      rw [if_neg h1, if_neg h2]
    · simp only [lineSpec]
      rw [if_neg h1, if_neg h2]
  | some sp =>
    have hlt : sp.idx < (pySplit (pyStrip s) sp.sepStr).length := by
      simp only [lineOkB] at hok
      rcases (Bool.or_eq_true _ _).mp hok with hor | hc
      · rcases (Bool.or_eq_true _ _).mp hor with ha | hb
        · exact absurd (by simpa using ha) h1
        · rw [Bool.and_eq_true] at hb
          refine absurd ⟨?_, ?_⟩ h2
          · simpa using hb.1
          · simpa using hb.2
      · simpa using hc
    have hget : (pySplit (pyStrip s) sp.sepStr).get? sp.idx
        = some ((pySplit (pyStrip s) sp.sepStr).get ⟨sp.idx, hlt⟩) :=
      List.get?_eq_get hlt
    refine ⟨(pySplit (pyStrip s) sp.sepStr).get ⟨sp.idx, hlt⟩, ?_, ?_⟩
    · simp only [lineRes]
      rw [if_neg h1, if_neg h2, hget]
    · simp only [lineSpec]
      rw [if_neg h1, if_neg h2]
      rw [List.getD_eq_get?, hget]
      rfl

theorem ptc_texts (nlp : NLP) (items : List PyVal) :
    ∀ report : ReportDict, ∀ cn cf lc ls pre : String, ∀ sep : Option Separator,
    (∀ v ∈ items, lineOkB pre sep v = true) →
    collectionTexts (process_text_collection nlp items report cn cf lc ls pre sep)
      = Except.ok (items.filterMap (lineSpec pre sep)) := by
  induction items with
  | nil =>
    intro report cn cf lc ls pre sep _
    simp [process_text_collection, collectionTexts]
  | cons item rest ih =>
    intro report cn cf lc ls pre sep hok
    have hitem := hok item (List.mem_cons_self item rest)
    have hrest : ∀ v ∈ rest, lineOkB pre sep v = true :=
      fun v hv => hok v (List.mem_cons_of_mem item hv)
    simp only [process_text_collection]
    cases item with
    | num n => simp [lineOkB] at hitem
    | pynone => simp [lineOkB] at hitem
    | str s =>
      by_cases h1 : pyStrip s = ""
      · have hl : lineRes (PyVal.str s) pre sep = LineRes.skip := by
          simp [lineRes, h1]
        have hspec : lineSpec pre sep (PyVal.str s) = none := by
          simp [lineSpec, h1]
        rw [hl]
        simp only [List.filterMap_cons, hspec]
        exact ih report cn cf lc ls pre sep hrest
      · by_cases h2 : pre ≠ "" ∧ ¬ pyStartsWith (pyStrip s) pre
        · have hl : lineRes (PyVal.str s) pre sep = LineRes.skip := by
            simp only [lineRes, if_neg h1]
            rw [if_pos h2]
          have hspec : lineSpec pre sep (PyVal.str s) = none := by
            simp only [lineSpec, if_neg h1]
            rw [if_pos h2]
          rw [hl]
          simp only [List.filterMap_cons, hspec]
          exact ih report cn cf lc ls pre sep hrest
        · obtain ⟨x, hl, hspec⟩ := lineRes_take_of_ok s pre sep hitem h1 h2
          rw [hl]
          simp only [List.filterMap_cons, hspec]
          rw [collectionTexts_prependData]
          rw [ih _ cn cf lc ls pre sep hrest]
          simp [process_text]

/-- Claim C6: for the line-oriented extractor, each input line is
whitespace-stripped first, empty lines are discarded, then lines missing
the configured required prefix are discarded, and then the configured
separator rule selects the record text — so the produced record texts are
exactly the per-line results of that pipeline, in order. -/
theorem C6_line_order (nlp : NLP) (items : List PyVal) (report : ReportDict)
    (cn cf lc ls pre : String) (sep : Option Separator)
    (hok : ∀ v ∈ items, lineOkB pre sep v = true) :
    collectionTexts (process_text_collection nlp items report cn cf lc ls pre sep)
      = Except.ok (items.filterMap (lineSpec pre sep)) :=
  ptc_texts nlp items report cn cf lc ls pre sep hok

/-- The C6 scenario input: lines `["", "  ", "hello world", "#skip-me"]`. -/
def c6wItems : List PyVal :=
  [PyVal.str "", PyVal.str "  ", PyVal.str "hello world", PyVal.str "#skip-me"]

/-- Witness for claim C6: under required prefix `"#"` the scenario file
yields exactly the one record whose stripped, non-empty text starts with
`"#"`. -/
theorem C6_witness :
    collectionTexts (process_text_collection trivialNLP c6wItems get_report_dict
      "c" "f" "grn" "Latn" "#" none) = Except.ok ["#skip-me"] := by
  have h := C6_line_order trivialNLP c6wItems get_report_dict "c" "f" "grn" "Latn" "#" none
    (by decide)
  rw [h]
  rfl

theorem lineRes_none_take_nonempty (item : PyVal) (pre text : String)
    (h : lineRes item pre none = LineRes.take text) : text ≠ "" := by
  cases item with
  | str s =>
    simp only [lineRes] at h
    by_cases h1 : pyStrip s = ""
    · rw [if_pos h1] at h; cases h
    · rw [if_neg h1] at h
      by_cases h2 : pre ≠ "" ∧ ¬ pyStartsWith (pyStrip s) pre
      · rw [if_pos h2] at h; cases h
      · rw [if_neg h2] at h
        cases h
        exact h1
  | num n => simp [lineRes] at h
  | pynone => simp [lineRes] at h

/-- Claim C7 (amended): in the line-oriented/markup extractor, when no
separator rule is configured every constructed record has a non-empty
string text; a configured separator rule may extract an empty field. -/
theorem C7_no_separator_nonempty (nlp : NLP) (items : List PyVal) :
    ∀ report : ReportDict, ∀ cn cf lc ls pre : String, ∀ ds : List TextDict, ∀ r : ReportDict,
    process_text_collection nlp items report cn cf lc ls pre none = Except.ok (ds, r) →
    ∀ td ∈ ds, td.text ≠ "" := by
  induction items with
  | nil =>
    intro report cn cf lc ls pre ds r h
    simp only [process_text_collection] at h
    cases h
    simp
  | cons item rest ih =>
    intro report cn cf lc ls pre ds r h td htd
    simp only [process_text_collection] at h
    cases hl : lineRes item pre none with
    | err e => rw [hl] at h; cases h
    | skip =>
      rw [hl] at h
      exact ih report cn cf lc ls pre ds r h td htd
    | take text =>
      rw [hl] at h
      rw [prependData_eq_ok] at h
      obtain ⟨ds2, hrec, rfl⟩ := h
      rcases List.mem_append.mp htd with hmem | hmem
      · have htext : td.text = text := by
          have heq := List.mem_singleton.mp hmem
          rw [heq]
          rfl
        rw [htext]
        exact lineRes_none_take_nonempty item pre text hl
      · exact ih _ cn cf lc ls pre ds2 r hrec td hmem

/-- The record texts saved for one raw file by the dispatch, `none` for a
skipped file. -/
def fileTexts (r : Except PyErr (Option (List TextDict × ReportDict))) :
    Except PyErr (Option (List String)) :=
  match r with
  | Except.error e => Except.error e
  | Except.ok none => Except.ok none
  | Except.ok (some p) => Except.ok (some (p.1.map TextDict.text))

/-- Counterexample to claim C7 as stated: for the grammar corpus, whose
separator rule is `('.,', 1)`, the line `"abc.,"` is assembled into a
record whose text is the empty string — the separator rule can extract an
empty field. -/
theorem C7_counterexample :
    fileTexts (processFile trivialNLP "grammar" "g.txt" (RawFile.txt ["abc.,"]))
      = Except.ok (some [""]) := by rfl

/-- The records produced when the C7 witness collection is processed. -/
def c7wData : List TextDict :=
  ((process_text_collection trivialNLP [PyVal.str " hola "] get_report_dict
    "c" "f" "grn" "Latn" "" none).toOption.getD ([], get_report_dict)).1

/-- Witness for claim C7 (amended) at a concrete no-separator run. -/
theorem C7_witness : c7wData.all (fun td => !(td.text == "")) = true := by
  refine List.all_eq_true.mpr ?_
  intro td htd
  have h := C7_no_separator_nonempty trivialNLP [PyVal.str " hola "] get_report_dict
    "c" "f" "grn" "Latn" "" c7wData
    (((process_text_collection trivialNLP [PyVal.str " hola "] get_report_dict
      "c" "f" "grn" "Latn" "" none).toOption.getD ([], get_report_dict)).2)
    (eq_ok_getD _ ([], get_report_dict) (by rfl)) td htd
  simpa using h

theorem lineRes_str_none_ne_err (s : String) (pre : String) (e : PyErr) :
    lineRes (PyVal.str s) pre none ≠ LineRes.err e := by
  simp only [lineRes]
  by_cases h1 : pyStrip s = ""
  · rw [if_pos h1]; simp
  · rw [if_neg h1]
    by_cases h2 : pre ≠ "" ∧ ¬ pyStartsWith (pyStrip s) pre
    · rw [if_pos h2]; simp
    · rw [if_neg h2]; simp

/-- Claim C10: when the collection handed to the line-oriented/markup
record builder contains a non-string item (such as the `None` the markup
reader yields for an `<s>` element with no text content), processing
raises an `AttributeError` — the stripping happens before the string
check, so a non-string item is never skipped. -/
theorem C10_nonstring_raises (nlp : NLP) (items : List PyVal) :
    ∀ report : ReportDict, ∀ cn cf lc ls pre : String,
    (∃ v ∈ items, isStrVal v = false) →
    process_text_collection nlp items report cn cf lc ls pre none
      = Except.error PyErr.attributeError := by
  induction items with
  | nil =>
    intro report cn cf lc ls pre h
    simp at h
  | cons item rest ih =>
    intro report cn cf lc ls pre h
    obtain ⟨v, hv, hnv⟩ := h
    simp only [process_text_collection]
    cases item with
    | str s =>
      have hmem : v ∈ rest := by
        rcases List.mem_cons.mp hv with heq | hmem
        · rw [heq] at hnv; simp [isStrVal] at hnv
        · exact hmem
      split
      next e heq => exact absurd heq (lineRes_str_none_ne_err s pre e)
      next => exact ih report cn cf lc ls pre ⟨v, hmem, hnv⟩
      next text heq =>
        rw [ih _ cn cf lc ls pre ⟨v, hmem, hnv⟩]
        rfl
    | num n => simp [lineRes]
    | pynone => simp [lineRes]

/-- Witness for claim C10: a collection holding a string and then `None`
raises rather than skipping the `None`. -/
theorem C10_witness :
    process_text_collection trivialNLP [PyVal.str "a", PyVal.pynone] get_report_dict
      "c" "f" "grn" "Latn" "" none = Except.error PyErr.attributeError :=
  C10_nonstring_raises trivialNLP [PyVal.str "a", PyVal.pynone] get_report_dict
    "c" "f" "grn" "Latn" "" ⟨PyVal.pynone, by decide, rfl⟩

/-- The string-valued members of the fixed ordered field list
`[flores_passage, question]` of one parsed line, in order. -/
def strFieldsOf (j : JsonRec) : List String :=
  ([j.flores_passage.getD PyVal.pynone, j.question.getD PyVal.pynone]).filterMap
    (fun v => match v with | PyVal.str s => some s | _ => none)

theorem process_jsonl_vals_texts (nlp : NLP) (fp q : PyVal) (report : ReportDict)
    (cn cf lc ls : String) :
    (process_jsonl_vals nlp [fp, q] report cn cf lc ls).1.map TextDict.text
      = [fp, q].filterMap (fun v => match v with | PyVal.str s => some s | _ => none) := by
  cases fp <;> cases q <;>
    simp [process_jsonl_vals, process_text]

theorem process_jsonl_lines_texts (nlp : NLP) (recs : List JsonRec) :
    ∀ report : ReportDict, ∀ cn cf lc ls : String,
    (∀ j ∈ recs, j.flores_passage.isSome = true ∧ j.question.isSome = true) →
    collectionTexts (process_jsonl_lines nlp recs report cn cf lc ls)
      = Except.ok ((recs.map strFieldsOf).flatten) := by
  induction recs with
  | nil =>
    intro report cn cf lc ls _
    simp [process_jsonl_lines, collectionTexts]
  | cons j rest ih =>
    intro report cn cf lc ls hall
    obtain ⟨hfp, hq⟩ := hall j (List.mem_cons_self j rest)
    obtain ⟨fp, hfp2⟩ := Option.isSome_iff_exists.mp hfp
    obtain ⟨q, hq2⟩ := Option.isSome_iff_exists.mp hq
    have hrest : ∀ x ∈ rest, x.flores_passage.isSome = true ∧ x.question.isSome = true :=
      fun x hx => hall x (List.mem_cons_of_mem j hx)
    simp only [process_jsonl_lines, hfp2, hq2, getField]
    rw [collectionTexts_prependData]
    rw [ih _ cn cf lc ls hrest]
    simp only [List.map_cons, List.flatten_cons]
    rw [process_jsonl_vals_texts]
    have hsf : strFieldsOf j
        = [fp, q].filterMap (fun v => match v with | PyVal.str s => some s | _ => none) := by
      simp [strFieldsOf, hfp2, hq2]
    rw [hsf]

/-- Claim C5 (amended): for every parsed line in which both named fields
are present, the extractor emits exactly one record per field whose value
is a string, in the fixed order `(flores_passage, question)`, skipping
non-string fields without error; a missing field, however, raises a
`KeyError`. -/
theorem C5_field_fanout (nlp : NLP) (recs : List JsonRec) (cn cf lc ls : String)
    (hall : ∀ j ∈ recs, j.flores_passage.isSome = true ∧ j.question.isSome = true) :
    collectionTexts (process_jsonl_corpus nlp recs cn cf lc ls)
      = Except.ok ((recs.map strFieldsOf).flatten) :=
  process_jsonl_lines_texts nlp recs get_report_dict cn cf lc ls hall

/-- Counterexample to claim C5 as stated: a parsed line missing the
`question` field is not skipped — the lookup raises a `KeyError`. -/
theorem C5_counterexample :
    process_jsonl_corpus trivialNLP
      [{ flores_passage := some (PyVal.str "x"), question := none }]
      "belele" "f.jsonl" "grn" "Latn"
      = Except.error (PyErr.keyError "question") := by rfl

/-- Witness for claim C5 (amended): one line with both fields string-valued
yields exactly the 2 records `["x", "y"]`. -/
theorem C5_witness :
    collectionTexts (process_jsonl_corpus trivialNLP
      [{ flores_passage := some (PyVal.str "x"), question := some (PyVal.str "y") }]
      "belele" "f.jsonl" "grn" "Latn")
      = Except.ok ["x", "y"] := by
  have h := C5_field_fanout trivialNLP
    [{ flores_passage := some (PyVal.str "x"), question := some (PyVal.str "y") }]
    "belele" "f.jsonl" "grn" "Latn" (by decide)
  rw [h]
  rfl

/-- Claim C3: merging a fresh counter dictionary with a previously
persisted report adds every cumulative sum field field-by-field, and when
the merged document count is positive every average is recomputed as the
merged sum divided by the merged `num_docs` (never by adding averages). -/
theorem C3_merge_additive (fresh e : ReportDict) :
    (save_report fresh (some e)).num_docs = fresh.num_docs + e.num_docs ∧
    (save_report fresh (some e)).num_words_split
      = fresh.num_words_split + e.num_words_split ∧
    (save_report fresh (some e)).num_words_punct_spacy
      = fresh.num_words_punct_spacy + e.num_words_punct_spacy ∧
    (save_report fresh (some e)).num_words_no_punct_spacy
      = fresh.num_words_no_punct_spacy + e.num_words_no_punct_spacy ∧
    (save_report fresh (some e)).num_chars = fresh.num_chars + e.num_chars ∧
    (save_report fresh (some e)).sum_lang_score
      = fresh.sum_lang_score + e.sum_lang_score ∧
    (0 < (save_report fresh (some e)).num_docs →
      (save_report fresh (some e)).avg_words_split
        = ((save_report fresh (some e)).num_words_split : ℚ)
          / ((save_report fresh (some e)).num_docs : ℚ) ∧
      (save_report fresh (some e)).avg_words_punct_spacy
        = ((save_report fresh (some e)).num_words_punct_spacy : ℚ)
          / ((save_report fresh (some e)).num_docs : ℚ) ∧
      (save_report fresh (some e)).avg_words_no_punct_spacy
        = ((save_report fresh (some e)).num_words_no_punct_spacy : ℚ)
          / ((save_report fresh (some e)).num_docs : ℚ) ∧
      (save_report fresh (some e)).avg_chars
        = ((save_report fresh (some e)).num_chars : ℚ)
          / ((save_report fresh (some e)).num_docs : ℚ) ∧
      (save_report fresh (some e)).avg_language_score
        = (save_report fresh (some e)).sum_lang_score
          / ((save_report fresh (some e)).num_docs : ℚ)) := by
  by_cases h : 0 < fresh.num_docs + e.num_docs <;>
    simp [save_report, h]

/-- The fresh counters of the C3 witness: three documents. -/
def c3fresh : ReportDict :=
  { get_report_dict with num_docs := 3, num_words_split := 30, num_chars := 33 }

/-- The previously persisted report of the C3 witness: five documents. -/
def c3old : ReportDict :=
  { get_report_dict with num_docs := 5, num_words_split := 20, num_chars := 17 }

/-- Witness for claim C3: merging reports with 3 and 5 documents yields 8,
and the averages are recomputed from the merged sums. -/
theorem C3_witness :
    (save_report c3fresh (some c3old)).num_docs = 8 ∧
    (save_report c3fresh (some c3old)).avg_words_split
      = ((save_report c3fresh (some c3old)).num_words_split : ℚ)
        / ((save_report c3fresh (some c3old)).num_docs : ℚ) := by
  refine ⟨(C3_merge_additive c3fresh c3old).1, ?_⟩
  exact ((C3_merge_additive c3fresh c3old).2.2.2.2.2.2 (by decide)).1

/-- The number of records the extraction path produces (and counts into
`num_docs`) for one raw file; 0 for a skipped file, the raised exception
otherwise. -/
def extractionNumDocs (nlp : NLP) (corpus fname : String) (file : RawFile) :
    Except PyErr Nat :=
  match processFile nlp corpus fname file with
  | Except.error e => Except.error e
  | Except.ok none => Except.ok 0
  | Except.ok (some p) => Except.ok p.2.num_docs

/-- Whether a dynamic value is a string that is non-empty once stripped. -/
def isNonblankStrB : PyVal → Bool
  | PyVal.str s => !(pyStrip s == "")
  | _ => false

/-- Whether a looked-up JSON field is present and string-valued. -/
def isStrOptB : Option PyVal → Bool
  | some (PyVal.str _) => true
  | _ => false

/-- Whether the separator rule's field index is in range for a line. -/
def sepIdxOkB : Option Separator → String → Bool
  | none, _ => true
  | some sp, t => decide (sp.idx < (pySplit t sp.sepStr).length)

/-- Inputs on which the two counting paths are claimed to agree: the
corpus is one the dispatcher recognises, every tabular text cell is a
string, every line-oriented line survives its filters consistently with
the reconciliation pattern and splits in range, every markup text and
unique premise is a non-blank string, and every line-JSON record has both
fields present as strings. -/
def admissibleC1 (corpus : String) (file : RawFile) : Bool :=
  match file with
  | RawFile.csv rows =>
    (isSubstring "jojajovai" corpus || isSubstring "culturax" corpus) &&
    rows.all (fun r => isStrVal r.text)
  | RawFile.txt lines =>
    if corpus = "gua_spa" then
      lines.all (fun l =>
        (pyStartsWith (pyStrip l) "#" == guaSpaMatch l) &&
        (!guaSpaMatch l || decide (2 ≤ (pySplit (pyStrip l) ": ").length)))
    else
      lines.all (fun l =>
        !(pyStrip l == "") && sepIdxOkB (txtConfig corpus).1 (pyStrip l))
  | RawFile.tsv rows =>
    tsvKnown corpus &&
    rows.all (fun r => isStrVal r.text) &&
    (if corpus = "americasnli" then (rows.map Row.premise).all isNonblankStrB else true)
  | RawFile.xml texts => texts.all isNonblankStrB
  | RawFile.jsonl recs =>
    (corpus == "belele") &&
    recs.all (fun j => isStrOptB j.flores_passage && isStrOptB j.question)
  | RawFile.other => true

theorem process_csv_rows_length (nlp : NLP) (rows : List Row) :
    ∀ report : ReportDict, ∀ cn cf lc ls : String,
    (∀ r ∈ rows, isStrVal r.text = true) →
    (process_csv_rows nlp rows report cn cf lc ls).1.length = rows.length := by
  induction rows with
  | nil => intro report cn cf lc ls _; simp [process_csv_rows]
  | cons row rest ih =>
    intro report cn cf lc ls hall
    have hrow := hall row (List.mem_cons_self row rest)
    have hrest : ∀ r ∈ rest, isStrVal r.text = true :=
      fun r hr => hall r (List.mem_cons_of_mem row hr)
    cases htext : row.text with
    | str s =>
      simp only [process_csv_rows, htext, List.length_cons]
      rw [ih _ cn cf lc ls hrest]
    | num n => rw [htext] at hrow; simp [isStrVal] at hrow
    | pynone => rw [htext] at hrow; simp [isStrVal] at hrow

theorem ptc_count (nlp : NLP) (items : List PyVal) (report : ReportDict)
    (cn cf lc ls pre : String) (sep : Option Separator)
    (hok : ∀ v ∈ items, lineOkB pre sep v = true) :
    ∃ p, process_text_collection nlp items report cn cf lc ls pre sep = Except.ok p ∧
      p.1.length = (items.filterMap (lineSpec pre sep)).length := by
  have ht := ptc_texts nlp items report cn cf lc ls pre sep hok
  cases hres : process_text_collection nlp items report cn cf lc ls pre sep with
  | error e => rw [hres] at ht; simp [collectionTexts] at ht
  | ok p =>
    rw [hres] at ht
    simp only [collectionTexts, Except.ok.injEq] at ht
    refine ⟨p, rfl, ?_⟩
    have := congrArg List.length ht
    simpa using this

theorem filterMap_lineSpec_nonblank (sep : Option Separator) (items : List PyVal)
    (hall : ∀ v ∈ items, isNonblankStrB v = true) :
    (items.filterMap (lineSpec "" sep)).length = items.length := by
  induction items with
  | nil => simp
  | cons item rest ih =>
    have hitem := hall item (List.mem_cons_self item rest)
    have hrest : ∀ v ∈ rest, isNonblankStrB v = true :=
      fun v hv => hall v (List.mem_cons_of_mem item hv)
    cases item with
    | str s =>
      have hnb : ¬ pyStrip s = "" := by simpa [isNonblankStrB] using hitem
      have hspec : ∃ x, lineSpec "" sep (PyVal.str s) = some x := by
        cases sep with
        | none => exact ⟨pyStrip s, by simp [lineSpec, hnb]⟩
        | some sp =>
          refine ⟨(pySplit (pyStrip s) sp.sepStr).getD sp.idx "", ?_⟩
          simp [lineSpec, hnb]
      obtain ⟨x, hx⟩ := hspec
      simp only [List.filterMap_cons, hx, List.length_cons]
      rw [ih hrest]
    | num n => simp [isNonblankStrB] at hitem
    | pynone => simp [isNonblankStrB] at hitem

theorem pyStartsWith_empty_hash : pyStartsWith "" "#" = false := by decide

theorem lineOkB_guaspa (l : String)
    (h1 : pyStartsWith (pyStrip l) "#" = guaSpaMatch l)
    (h2 : guaSpaMatch l = true → 2 ≤ (pySplit (pyStrip l) ": ").length) :
    lineOkB "#" (some { sepStr := ": ", idx := 1 }) (PyVal.str l) = true := by
  simp only [lineOkB]
  by_cases hb : pyStrip l = ""
  · simp [hb]
  · by_cases hs : pyStartsWith (pyStrip l) "#" = true
    · have hg : guaSpaMatch l = true := by rw [← h1]; exact hs
      have hlen := h2 hg
      have hlt : 1 < (pySplit (pyStrip l) ": ").length := by omega
      simp [hb, hs, hlt]
    · have hs2 : pyStartsWith (pyStrip l) "#" = false := by
        cases hx : pyStartsWith (pyStrip l) "#"
        · rfl
        · exact absurd hx hs
      simp [hb, hs2]

theorem filterMap_lineSpec_guaspa (lines : List String)
    (hall : ∀ l ∈ lines, pyStartsWith (pyStrip l) "#" = guaSpaMatch l) :
    ((lines.map PyVal.str).filterMap
        (lineSpec "#" (some { sepStr := ": ", idx := 1 }))).length
      = (lines.filter guaSpaMatch).length := by
  induction lines with
  | nil => simp
  | cons l rest ih =>
    have hl := hall l (List.mem_cons_self l rest)
    have hrest : ∀ x ∈ rest, pyStartsWith (pyStrip x) "#" = guaSpaMatch x :=
      fun x hx => hall x (List.mem_cons_of_mem l hx)
    simp only [List.map_cons, List.filterMap_cons, List.filter_cons]
    by_cases hb : pyStrip l = ""
    · have hg : guaSpaMatch l = false := by
        rw [← hl, hb]
        exact pyStartsWith_empty_hash
      have hspec : lineSpec "#" (some { sepStr := ": ", idx := 1 }) (PyVal.str l) = none := by
        simp [lineSpec, hb]
      rw [hspec, hg]
      simpa using ih hrest
    · cases hs : pyStartsWith (pyStrip l) "#" with
      | true =>
        have hg : guaSpaMatch l = true := by rw [← hl]; exact hs
        have hspec : lineSpec "#" (some { sepStr := ": ", idx := 1 }) (PyVal.str l)
            = some ((pySplit (pyStrip l) ": ").getD 1 "") := by
          simp only [lineSpec]
          rw [if_neg hb, if_neg (by simp [hs])]
        rw [hspec, hg]
        simp only [if_pos trivial, List.length_cons]
        rw [ih hrest]
      | false =>
        have hg : guaSpaMatch l = false := by rw [← hl]; exact hs
        have hspec : lineSpec "#" (some { sepStr := ": ", idx := 1 }) (PyVal.str l) = none := by
          simp only [lineSpec]
          rw [if_neg hb, if_pos ⟨by decide, by simp [hs]⟩]
        rw [hspec, hg]
        simpa using ih hrest

theorem lineOkB_plain (sep : Option Separator) (l : String)
    (_hnb : ¬ pyStrip l = "") (hidx : sepIdxOkB sep (pyStrip l) = true) :
    lineOkB "" sep (PyVal.str l) = true := by
  cases sep with
  | none => simp [lineOkB]
  | some sp =>
    simp only [sepIdxOkB] at hidx
    simp [lineOkB, hidx]

theorem isStrOptB_iff (o : Option PyVal) : isStrOptB o = true ↔ ∃ s, o = some (PyVal.str s) := by
  cases o with
  | none => simp [isStrOptB]
  | some v => cases v <;> simp [isStrOptB]

theorem strFields_flatten_length (recs : List JsonRec)
    (hall : ∀ j ∈ recs, isStrOptB j.flores_passage = true ∧ isStrOptB j.question = true) :
    ((recs.map strFieldsOf).flatten).length = 2 * recs.length := by
  induction recs with
  | nil => simp
  | cons j rest ih =>
    obtain ⟨h1, h2⟩ := hall j (List.mem_cons_self j rest)
    have hrest : ∀ x ∈ rest, isStrOptB x.flores_passage = true ∧ isStrOptB x.question = true :=
      fun x hx => hall x (List.mem_cons_of_mem j hx)
    obtain ⟨s, hs⟩ := (isStrOptB_iff _).mp h1
    obtain ⟨t, ht⟩ := (isStrOptB_iff _).mp h2
    have hlen : (strFieldsOf j).length = 2 := by
      simp [strFieldsOf, hs, ht]
    simp only [List.map_cons, List.flatten_cons, List.length_append, List.length_cons, hlen]
    rw [ih hrest]
    ring

theorem jsonl_count (nlp : NLP) (recs : List JsonRec) (cn cf lc ls : String)
    (hall : ∀ j ∈ recs, isStrOptB j.flores_passage = true ∧ isStrOptB j.question = true) :
    ∃ p, process_jsonl_corpus nlp recs cn cf lc ls = Except.ok p ∧
      p.1.length = 2 * recs.length := by
  have hsome : ∀ j ∈ recs, j.flores_passage.isSome = true ∧ j.question.isSome = true := by
    intro j hj
    obtain ⟨h1, h2⟩ := hall j hj
    obtain ⟨s, hs⟩ := (isStrOptB_iff _).mp h1
    obtain ⟨t, ht⟩ := (isStrOptB_iff _).mp h2
    rw [hs, ht]
    exact ⟨rfl, rfl⟩
  have ht := process_jsonl_lines_texts nlp recs get_report_dict cn cf lc ls hsome
  cases hres : process_jsonl_corpus nlp recs cn cf lc ls with
  | error e =>
    rw [show process_jsonl_lines nlp recs get_report_dict cn cf lc ls
        = process_jsonl_corpus nlp recs cn cf lc ls from rfl, hres] at ht
    simp [collectionTexts] at ht
  | ok p =>
    rw [show process_jsonl_lines nlp recs get_report_dict cn cf lc ls
        = process_jsonl_corpus nlp recs cn cf lc ls from rfl, hres] at ht
    simp only [collectionTexts, Except.ok.injEq] at ht
    refine ⟨p, rfl, ?_⟩
    have hlen := congrArg List.length ht
    simp only [List.length_map] at hlen
    rw [hlen]
    exact strFields_flatten_length recs hall

theorem lineOkB_none_of_nonblank (v : PyVal) (h : isNonblankStrB v = true) :
    lineOkB "" none v = true := by
  cases v <;> simp_all [lineOkB, isNonblankStrB]

theorem uniqueKeepFirst_go_subset :
    ∀ (l seen : List PyVal) (x : PyVal), x ∈ uniqueKeepFirst.go seen l → x ∈ l := by
  intro l
  induction l with
  | nil => intro seen x h; simp [uniqueKeepFirst.go] at h
  | cons y ys ih =>
    intro seen x h
    simp only [uniqueKeepFirst.go] at h
    by_cases hy : y ∈ seen
    · rw [if_pos hy] at h
      exact List.mem_cons_of_mem y (ih seen x h)
    · rw [if_neg hy] at h
      rcases List.mem_cons.mp h with heq | hmem
      · rw [heq]; exact List.mem_cons_self y ys
      · exact List.mem_cons_of_mem y (ih (y :: seen) x hmem)

theorem uniqueKeepFirst_subset (l : List PyVal) (x : PyVal)
    (h : x ∈ uniqueKeepFirst l) : x ∈ l :=
  uniqueKeepFirst_go_subset l [] x h

theorem txtConfig_pre_of_ne (c : String) (h : ¬ c = "gua_spa") : (txtConfig c).2 = "" := by
  unfold txtConfig
  split_ifs <;> simp_all

/-- Claim C1 (amended): on admissible inputs — where every tabular text
cell is a string, every plain line is non-blank with its separator index
in range, gua_spa's stripped-prefix filter agrees with the reconciliation
pattern on every line, every markup text and unique premise is a non-blank
string, and every line-JSON record of the belele corpus has both fields as
strings — the number of records the extraction path counts into
`num_docs` for a raw file equals the reconciliation counter's expected raw
count, including the corpus-specific exceptions (gua_spa prefix filter,
americasnli unique-premise fan-out, belele ×2 multiplier). -/
theorem C1_two_path_agreement (nlp : NLP) (corpus fname : String) (file : RawFile)
    (hadm : admissibleC1 corpus file = true) :
    extractionNumDocs nlp corpus fname file
      = Except.ok (compute_num_raw_records_file corpus file) := by
  cases file with
  | other => rfl
  | csv rows =>
    simp only [admissibleC1, Bool.and_eq_true, List.all_eq_true] at hadm
    obtain ⟨hsub, hstr⟩ := hadm
    have hcfg : ∃ cname, csvConfig corpus = Except.ok cname ∧ ¬ cname = "americasnli" := by
      by_cases hj : isSubstring "jojajovai" corpus = true
      · exact ⟨"jojajovai", by simp [csvConfig, hj], by decide⟩
      · have hj2 : isSubstring "jojajovai" corpus = false := by
          cases hx : isSubstring "jojajovai" corpus
          · rfl
          · exact absurd hx hj
        have hcx : isSubstring "culturax" corpus = true := by
          rcases (Bool.or_eq_true _ _).mp hsub with h | h
          · exact absurd h hj
          · exact h
        exact ⟨"culturax", by simp [csvConfig, hj2, hcx], by decide⟩
    obtain ⟨cname, hcfg, hname⟩ := hcfg
    have hpc : process_csv_corpus nlp rows cname fname "grn" "Latn"
        = Except.ok ((process_csv_rows nlp rows get_report_dict cname fname "grn" "Latn").1,
                     (process_csv_rows nlp rows get_report_dict cname fname "grn" "Latn").2) := by
      simp only [process_csv_corpus]
      rw [if_neg hname]
    simp only [extractionNumDocs, processFile, hcfg, hpc]
    simp only [compute_num_raw_records_file, Except.ok.injEq]
    have hnd := process_csv_rows_num_docs nlp rows get_report_dict cname fname "grn" "Latn"
    have hlen := process_csv_rows_length nlp rows get_report_dict cname fname "grn" "Latn" hstr
    simp only [get_report_dict_num_docs] at hnd
    omega
  | txt lines =>
    by_cases hgs : corpus = "gua_spa"
    · subst hgs
      simp only [admissibleC1, eq_self_iff_true, if_true] at hadm
      rw [List.all_eq_true] at hadm
      have h1 : ∀ l ∈ lines, pyStartsWith (pyStrip l) "#" = guaSpaMatch l := by
        intro l hl
        have hb := hadm l hl
        rw [Bool.and_eq_true] at hb
        simpa using hb.1
      have h2 : ∀ l ∈ lines, guaSpaMatch l = true → 2 ≤ (pySplit (pyStrip l) ": ").length := by
        intro l hl hg
        have hb := hadm l hl
        rw [Bool.and_eq_true] at hb
        have h22 := hb.2
        rw [hg] at h22
        simpa using h22
      have hok : ∀ v ∈ lines.map PyVal.str,
          lineOkB "#" (some { sepStr := ": ", idx := 1 }) v = true := by
        intro v hv
        obtain ⟨l, hl, rfl⟩ := List.mem_map.mp hv
        exact lineOkB_guaspa l (h1 l hl) (h2 l hl)
      obtain ⟨p, hp, hplen⟩ := ptc_count nlp (lines.map PyVal.str) get_report_dict
        "gua_spa" fname "grn" "Latn" "#" (some { sepStr := ": ", idx := 1 }) hok
      have hcfg1 : (txtConfig "gua_spa").1 = some { sepStr := ": ", idx := 1 } := rfl
      have hcfg2 : (txtConfig "gua_spa").2 = "#" := rfl
      simp only [extractionNumDocs, processFile, hcfg1, hcfg2, hp]
      simp only [compute_num_raw_records_file, eq_self_iff_true, if_true, Except.ok.injEq]
      have hnd := process_text_collection_num_docs nlp (lines.map PyVal.str) get_report_dict
        "gua_spa" fname "grn" "Latn" "#" (some { sepStr := ": ", idx := 1 }) p.1 p.2 (by rw [hp])
      simp only [get_report_dict_num_docs] at hnd
      have hfg := filterMap_lineSpec_guaspa lines h1
      omega
    · simp only [admissibleC1] at hadm
      rw [if_neg hgs, List.all_eq_true] at hadm
      have hnb : ∀ l ∈ lines, ¬ pyStrip l = "" := by
        intro l hl
        have hb := hadm l hl
        rw [Bool.and_eq_true] at hb
        simpa using hb.1
      have hidx : ∀ l ∈ lines, sepIdxOkB (txtConfig corpus).1 (pyStrip l) = true := by
        intro l hl
        have hb := hadm l hl
        rw [Bool.and_eq_true] at hb
        exact hb.2
      have hok : ∀ v ∈ lines.map PyVal.str, lineOkB "" (txtConfig corpus).1 v = true := by
        intro v hv
        obtain ⟨l, hl, rfl⟩ := List.mem_map.mp hv
        exact lineOkB_plain (txtConfig corpus).1 l (hnb l hl) (hidx l hl)
      obtain ⟨p, hp, hplen⟩ := ptc_count nlp (lines.map PyVal.str) get_report_dict
        corpus fname "grn" "Latn" "" (txtConfig corpus).1 hok
      have hpre := txtConfig_pre_of_ne corpus hgs
      simp only [extractionNumDocs, processFile, hpre, hp]
      simp only [compute_num_raw_records_file]
      rw [if_neg hgs]
      simp only [Except.ok.injEq]
      have hnd := process_text_collection_num_docs nlp (lines.map PyVal.str) get_report_dict
        corpus fname "grn" "Latn" "" (txtConfig corpus).1 p.1 p.2 (by rw [hp])
      simp only [get_report_dict_num_docs] at hnd
      have hfm : ((lines.map PyVal.str).filterMap (lineSpec "" (txtConfig corpus).1)).length
          = (lines.map PyVal.str).length := by
        apply filterMap_lineSpec_nonblank
        intro v hv
        obtain ⟨l, hl, rfl⟩ := List.mem_map.mp hv
        simp [isNonblankStrB, hnb l hl]
      simp only [List.length_map] at hfm
      omega
  | tsv rows =>
    simp only [admissibleC1, Bool.and_eq_true] at hadm
    obtain ⟨⟨hknown, hstr⟩, hprem⟩ := hadm
    rw [List.all_eq_true] at hstr
    by_cases hcn : corpus = "americasnli"
    · subst hcn
      simp only [eq_self_iff_true, if_true] at hprem
      rw [List.all_eq_true] at hprem
      have hprem2 : ∀ v ∈ uniqueKeepFirst (rows.map Row.premise), isNonblankStrB v = true :=
        fun v hv => hprem v (uniqueKeepFirst_subset _ v hv)
      have hok : ∀ v ∈ uniqueKeepFirst (rows.map Row.premise), lineOkB "" none v = true :=
        fun v hv => lineOkB_none_of_nonblank v (hprem2 v hv)
      obtain ⟨p, hp, hplen⟩ := ptc_count nlp (uniqueKeepFirst (rows.map Row.premise))
        (process_csv_rows nlp rows get_report_dict "americasnli" fname "grn" "Latn").2
        "americasnli" fname "grn" "Latn" "" none hok
      have hpc : process_csv_corpus nlp rows "americasnli" fname "grn" "Latn"
          = Except.ok
              ((process_csv_rows nlp rows get_report_dict "americasnli" fname "grn" "Latn").1 ++ p.1,
               p.2) := by
        simp only [process_csv_corpus, eq_self_iff_true, if_true]
        rw [hp]
        rfl
      have htk : tsvKnown "americasnli" = true := rfl
      have hfile : processFile nlp "americasnli" fname (RawFile.tsv rows)
          = Except.ok (some
              ((process_csv_rows nlp rows get_report_dict "americasnli" fname "grn" "Latn").1 ++ p.1,
               p.2)) := by
        simp only [processFile]
        rw [if_pos htk, hpc]
      simp only [extractionNumDocs, hfile]
      simp only [compute_num_raw_records_file, eq_self_iff_true, if_true, Except.ok.injEq]
      have hnd_csv := process_csv_rows_num_docs nlp rows get_report_dict "americasnli" fname "grn" "Latn"
      have hlen_csv := process_csv_rows_length nlp rows get_report_dict "americasnli" fname "grn" "Latn" hstr
      have hnd_coll := process_text_collection_num_docs nlp
        (uniqueKeepFirst (rows.map Row.premise))
        (process_csv_rows nlp rows get_report_dict "americasnli" fname "grn" "Latn").2
        "americasnli" fname "grn" "Latn" "" none p.1 p.2 (by rw [hp])
      have hfm := filterMap_lineSpec_nonblank none (uniqueKeepFirst (rows.map Row.premise)) hprem2
      simp only [get_report_dict_num_docs] at hnd_csv
      omega
    · rw [if_neg hcn] at hprem
      have hpc : process_csv_corpus nlp rows corpus fname "grn" "Latn"
          = Except.ok ((process_csv_rows nlp rows get_report_dict corpus fname "grn" "Latn").1,
                       (process_csv_rows nlp rows get_report_dict corpus fname "grn" "Latn").2) := by
        simp only [process_csv_corpus]
        rw [if_neg hcn]
      have hfile : processFile nlp corpus fname (RawFile.tsv rows)
          = Except.ok (some
              ((process_csv_rows nlp rows get_report_dict corpus fname "grn" "Latn").1,
               (process_csv_rows nlp rows get_report_dict corpus fname "grn" "Latn").2)) := by
        simp only [processFile]
        rw [if_pos hknown, hpc]
      simp only [extractionNumDocs, hfile]
      simp only [compute_num_raw_records_file]
      rw [if_neg hcn]
      simp only [Except.ok.injEq]
      have hnd := process_csv_rows_num_docs nlp rows get_report_dict corpus fname "grn" "Latn"
      have hlen := process_csv_rows_length nlp rows get_report_dict corpus fname "grn" "Latn" hstr
      simp only [get_report_dict_num_docs] at hnd
      omega
  | xml texts =>
    simp only [admissibleC1, List.all_eq_true] at hadm
    have hok : ∀ v ∈ texts, lineOkB "" none v = true :=
      fun v hv => lineOkB_none_of_nonblank v (hadm v hv)
    obtain ⟨p, hp, hplen⟩ := ptc_count nlp texts get_report_dict corpus fname "grn" "Latn" "" none hok
    simp only [extractionNumDocs, processFile, hp]
    simp only [compute_num_raw_records_file, Except.ok.injEq]
    have hnd := process_text_collection_num_docs nlp texts get_report_dict corpus fname
      "grn" "Latn" "" none p.1 p.2 (by rw [hp])
    simp only [get_report_dict_num_docs] at hnd
    have hfm := filterMap_lineSpec_nonblank none texts hadm
    omega
  | jsonl recs =>
    simp only [admissibleC1, Bool.and_eq_true, List.all_eq_true] at hadm
    obtain ⟨hbel, hflds⟩ := hadm
    have hbel2 : corpus = "belele" := by simpa using hbel
    subst hbel2
    obtain ⟨p, hp, hplen⟩ := jsonl_count nlp recs "belele" fname "grn" "Latn" hflds
    simp only [extractionNumDocs, processFile, hp]
    simp only [compute_num_raw_records_file, eq_self_iff_true, if_true, Except.ok.injEq]
    have hnd := process_jsonl_corpus_num_docs nlp recs "belele" fname "grn" "Latn" p.1 p.2 (by rw [hp])
    omega

/-- Counterexample to claim C1 as stated: a plain line-oriented raw file
whose single line is blank — the extraction path produces 0 records while
the reconciliation counter, which counts all lines, expects 1. -/
theorem C1_counterexample :
    extractionNumDocs trivialNLP "mycorpus" "f.txt" (RawFile.txt [""]) = Except.ok 0 ∧
    compute_num_raw_records_file "mycorpus" (RawFile.txt [""]) = 1 := by
  constructor
  · rfl
  · rfl

/-- The gua_spa lines used to witness claim C1 (amended). -/
def c1wLines : List String := ["#dev15: hola", "nope", ""]

/-- Witness for claim C1 (amended) at a concrete gua_spa file. -/
theorem C1_witness :
    extractionNumDocs trivialNLP "gua_spa" "f.txt" (RawFile.txt c1wLines)
      = Except.ok (compute_num_raw_records_file "gua_spa" (RawFile.txt c1wLines)) :=
  C1_two_path_agreement trivialNLP "gua_spa" "f.txt" (RawFile.txt c1wLines) (by decide)

/-- Whether one processed file passes its assertion against the expected
count. -/
def fileMatchesB (expected : Nat) : ProcFile → Bool
  | ProcFile.reportFile n => n == expected
  | ProcFile.storeFile m => m == expected
  | ProcFile.otherFile => true

/-- The assertion failure one processed file raises against the expected
count, `none` when its assertion passes. -/
def fileErr (corpus : String) (expected : Nat) : ProcFile → Option CheckErr
  | ProcFile.reportFile n =>
    if n = expected then none else some (CheckErr.reportAssert corpus expected n)
  | ProcFile.storeFile m =>
    if m = expected then none else some (CheckErr.storeAssert corpus expected m)
  | ProcFile.otherFile => none

theorem checkFiles_ok_of (raw : String → Option Nat) (corpus : String) (expected : Nat)
    (files : List ProcFile) (hraw : raw corpus = some expected)
    (hall : ∀ f ∈ files, fileMatchesB expected f = true) :
    checkFiles raw corpus files = Except.ok () := by
  induction files with
  | nil => simp [checkFiles]
  | cons f rest ih =>
    have hf := hall f (List.mem_cons_self f rest)
    have hrest : ∀ g ∈ rest, fileMatchesB expected g = true :=
      fun g hg => hall g (List.mem_cons_of_mem f hg)
    cases f with
    | reportFile n =>
      have hn : n = expected := by simpa [fileMatchesB] using hf
      simp only [checkFiles, hraw]
      rw [if_pos hn]
      exact ih hrest
    | storeFile m =>
      have hm : m = expected := by simpa [fileMatchesB] using hf
      simp only [checkFiles, hraw]
      rw [if_pos hm]
      exact ih hrest
    | otherFile =>
      simp only [checkFiles, hraw]
      exact ih hrest

theorem checkFiles_err_of (raw : String → Option Nat) (corpus : String) (expected : Nat)
    (good : List ProcFile) (f : ProcFile) (rest : List ProcFile) (err : CheckErr)
    (hraw : raw corpus = some expected)
    (hgood : ∀ g ∈ good, fileMatchesB expected g = true)
    (hf : fileErr corpus expected f = some err) :
    checkFiles raw corpus (good ++ f :: rest) = Except.error err := by
  induction good with
  | nil =>
    cases f with
    | reportFile n =>
      by_cases hn : n = expected
      · rw [fileErr, if_pos hn] at hf; cases hf
      · rw [fileErr, if_neg hn] at hf
        cases hf
        simp only [List.nil_append, checkFiles, hraw]
        rw [if_neg hn]
    | storeFile m =>
      by_cases hm : m = expected
      · rw [fileErr, if_pos hm] at hf; cases hf
      · rw [fileErr, if_neg hm] at hf
        cases hf
        simp only [List.nil_append, checkFiles, hraw]
        rw [if_neg hm]
    | otherFile => rw [fileErr] at hf; cases hf
  | cons g good2 ih =>
    have hg := hgood g (List.mem_cons_self g good2)
    have hgood2 : ∀ x ∈ good2, fileMatchesB expected x = true :=
      fun x hx => hgood x (List.mem_cons_of_mem g hx)
    cases g with
    | reportFile n =>
      have hn : n = expected := by simpa [fileMatchesB] using hg
      simp only [List.cons_append, checkFiles, hraw]
      rw [if_pos hn]
      exact ih hgood2
    | storeFile m =>
      have hm : m = expected := by simpa [fileMatchesB] using hg
      simp only [List.cons_append, checkFiles, hraw]
      rw [if_pos hm]
      exact ih hgood2
    | otherFile =>
      simp only [List.cons_append, checkFiles, hraw]
      exact ih hgood2

theorem check_append_err (raw : String → Option Nat) (pre : List ProcCorpus) :
    ∀ tail : List ProcCorpus, ∀ err : CheckErr,
    (∀ c2 ∈ pre, ∃ e2, raw c2.name = some e2 ∧ ∀ g ∈ c2.files, fileMatchesB e2 g = true) →
    check_processed_corpora tail raw = Except.error err →
    check_processed_corpora (pre ++ tail) raw = Except.error err := by
  induction pre with
  | nil => intro tail err _ h; simpa using h
  | cons c pre2 ih =>
    intro tail err hok h
    obtain ⟨e, hraw, hall⟩ := hok c (List.mem_cons_self c pre2)
    have hok2 : ∀ c2 ∈ pre2, ∃ e2, raw c2.name = some e2 ∧
        ∀ g ∈ c2.files, fileMatchesB e2 g = true :=
      fun c2 hc2 => hok c2 (List.mem_cons_of_mem c hc2)
    simp only [List.cons_append, check_processed_corpora,
      checkFiles_ok_of raw c.name e c.files hraw hall, List.append_eq,
      ih tail err hok2 h]

/-- Claim C9: the reconciliation check asserts, per corpus, the report's
`num_docs` and the record store's line count against the independently
computed expected count; when every corpus matches it succeeds and prints
one OK line per corpus, and the first mismatching file of the first
mismatching corpus aborts the whole check with an error naming that corpus
and both the expected and actual counts, leaving later corpora unchecked. -/
theorem C9_check_behavior (corpora : List ProcCorpus) (raw : String → Option Nat) :
    ((∀ c ∈ corpora, ∃ e, raw c.name = some e ∧ ∀ f ∈ c.files, fileMatchesB e f = true) →
      check_processed_corpora corpora raw
        = Except.ok (corpora.map (fun c => "Ok " ++ c.name ++ "!"))) ∧
    (∀ pre : List ProcCorpus, ∀ c : ProcCorpus, ∀ post : List ProcCorpus, ∀ e : Nat,
     ∀ good : List ProcFile, ∀ f : ProcFile, ∀ rest : List ProcFile, ∀ err : CheckErr,
      corpora = pre ++ c :: post →
      (∀ c2 ∈ pre, ∃ e2, raw c2.name = some e2 ∧ ∀ g ∈ c2.files, fileMatchesB e2 g = true) →
      raw c.name = some e →
      c.files = good ++ f :: rest →
      (∀ g ∈ good, fileMatchesB e g = true) →
      fileErr c.name e f = some err →
      check_processed_corpora corpora raw = Except.error err) := by
  constructor
  · intro hall
    induction corpora with
    | nil => simp [check_processed_corpora]
    | cons c rest ih =>
      obtain ⟨e, hraw, hfiles⟩ := hall c (List.mem_cons_self c rest)
      have hrest : ∀ c2 ∈ rest, ∃ e2, raw c2.name = some e2 ∧
          ∀ f ∈ c2.files, fileMatchesB e2 f = true :=
        fun c2 hc2 => hall c2 (List.mem_cons_of_mem c hc2)
      simp only [check_processed_corpora,
        checkFiles_ok_of raw c.name e c.files hraw hfiles, ih hrest, List.map_cons]
  · intro pre c post e good f rest err hsplit hpre hraw hfiles hgood herr
    subst hsplit
    apply check_append_err raw pre (c :: post) err hpre
    simp only [check_processed_corpora, hfiles,
      checkFiles_err_of raw c.name e good f rest err hraw hgood herr]

/-- The processed state used to witness claim C9: the report claims 5
documents while the record store holds one record fewer. -/
def c9wCorpora : List ProcCorpus :=
  [{ name := "c", files := [ProcFile.reportFile 5, ProcFile.storeFile 4] }]

/-- The expected raw counts used to witness claim C9. -/
def c9wRaw : String → Option Nat := fun n => if n = "c" then some 5 else none

/-- Witness for claim C9: a record store with one record fewer than
expected aborts the check naming the corpus and the exact counts 5 and 4. -/
theorem C9_witness :
    check_processed_corpora c9wCorpora c9wRaw
      = Except.error (CheckErr.storeAssert "c" 5 4) :=
  (C9_check_behavior c9wCorpora c9wRaw).2 []
    { name := "c", files := [ProcFile.reportFile 5, ProcFile.storeFile 4] } [] 5
    [ProcFile.reportFile 5] (ProcFile.storeFile 4) [] (CheckErr.storeAssert "c" 5 4)
    rfl (by simp) (by rfl) rfl (by decide) (by rfl)
